import Mathlib

namespace AIResearcher

/-! ## Association-list helpers (the in-memory `Map` of `session-store.ts`) -/

def alGet {κ β : Type} [DecidableEq κ] : List (κ × β) → κ → Option β
  | [], _ => none
  | (k', v) :: t, k => if k' = k then some v else alGet t k

def alErase {κ β : Type} [DecidableEq κ] : List (κ × β) → κ → List (κ × β)
  | [], _ => []
  | (k', v) :: t, k => if k' = k then alErase t k else (k', v) :: alErase t k

def alSet {κ β : Type} [DecidableEq κ] (l : List (κ × β)) (k : κ) (v : β) :
    List (κ × β) :=
  (k, v) :: alErase l k

/-! ## Stream events

`CliStreamEvent` from `server/src/index.ts`: a record with a `type` tag and
optional fields; the orchestration layer also synthesizes `message`, `done`
and `error` events of the same shape (`research.ts`). -/

structure CliStreamEvent where
  type : String
  session_id : Option String := none
  role : Option String := none
  content : Option String := none
  message : Option String := none
  exitCode : Option Int := none
  status : Option String := none
deriving DecidableEq, Repr

inductive SessionStatus where
  | running
  | completed
  | failed
  | aborted
deriving DecidableEq, Repr

def statusString : SessionStatus → String
  | .running => "running"
  | .completed => "completed"
  | .failed => "failed"
  | .aborted => "aborted"

/-- `{ type: 'message', role: 'assistant', content }`, as synthesized by the
`log` listener and the deep-research progress messages in `research.ts`. -/
def msgEvent (line : String) : CliStreamEvent :=
  { type := "message", role := some ("assistant"), content := some line }

/-- `{ type: 'error', message }`. -/
def errEvent (m : String) : CliStreamEvent :=
  { type := "error", message := some m }

/-- `{ type: 'done', exitCode: code, status }` broadcast by the `close`
listeners (`research.ts`). -/
def doneEvent (code : Option Int) (st : SessionStatus) : CliStreamEvent :=
  { type := "done", exitCode := code, status := some (statusString st) }

/-- `{ type: 'done', status }` written by the events-replay handler when the
session is already terminal (`research.ts`, GET `/:id/events`). -/
def doneNoCode (st : SessionStatus) : CliStreamEvent :=
  { type := "done", status := some (statusString st) }

/-! ## Workspace path sanitisation (`server/src/lib/workspace-manager.ts`)

```
export function getWorkspacePath(experimentId: string): string {
  const sanitized = experimentId.replace(/[^a-zA-Z0-9_-]/g, '');
  return path.join(WORKSPACE_ROOT, sanitized);
}
```

`WORKSPACE_ROOT` is an absolute path fixed at module load; it is passed
here as the `root` argument.  `path.join(root, s)` with `root` a
non-empty absolute path and `s` a string with no separators returns
`root` when `s` is empty and `root ++ "/" ++ s` otherwise. -/

def allowedChar (c : Char) : Bool :=
  ('a' ≤ c && c ≤ 'z') || ('A' ≤ c && c ≤ 'Z') || ('0' ≤ c && c ≤ '9') ||
    c = '_' || c = '-'

def sanitizeId (experimentId : String) : String :=
  ⟨experimentId.data.filter allowedChar⟩

def pathJoin (root s : String) : String :=
  if s = "" then root else root ++ "/" ++ s

def getWorkspacePath (root experimentId : String) : String :=
  pathJoin root (sanitizeId experimentId)

/-! ## `CliRunner.abort` (`server/src/index.ts`)

```
emitter.abort = () => {
  proc.kill('SIGTERM');
  setTimeout(() => {
    if (!proc.killed) proc.kill('SIGKILL');
  }, 3000);
};
```

Node semantics of `ChildProcess`: `subprocess.kill(sig)` delivers `sig`
only if the OS process has not already exited (returning `false`
otherwise), and `subprocess.killed` is set to `true` exactly when some
`kill()` call successfully sent a signal — it does **not** indicate that
the process has terminated.  `NodeProc` records the exit flag, the
`killed` flag and the signals actually delivered; `abortRun` runs the
abort operation together with its 3-second timer, where
`exitsDuringGrace` says whether the OS process terminates on its own (or
in response to SIGTERM) before the timer fires. -/

structure NodeProc where
  exited : Bool
  killedFlag : Bool
  delivered : List String
deriving DecidableEq, Repr

def nodeKill (p : NodeProc) (sig : String) : NodeProc :=
  if p.exited then p
  else { p with killedFlag := true, delivered := p.delivered ++ [sig] }

/-- The immediate body of `abort()`: `proc.kill('SIGTERM')`. -/
def abortNow (p : NodeProc) : NodeProc := nodeKill p ("SIGTERM")

/-- The `setTimeout` body, 3000 ms later: `if (!proc.killed) proc.kill('SIGKILL')`. -/
def graceTimer (p : NodeProc) : NodeProc :=
  if !p.killedFlag then nodeKill p ("SIGKILL") else p

/-- `abort()` followed by its grace timer; `exitsDuringGrace` tells whether
the OS process exits before the timer fires. -/
def abortRun (p : NodeProc) (exitsDuringGrace : Bool) : NodeProc :=
  let p₁ := abortNow p
  let p₂ := if exitsDuringGrace then { p₁ with exited := true } else p₁
  graceTimer p₂

/-! ## Command execution streamer (`server/src/routes/execute.ts`)

```
const ALLOWED_COMMANDS = ['python', 'python3', 'pip', 'pip3', 'jupyter', 'ls', 'cat', 'head', 'tail'];
...
const cmdParts = command.trim().split(/\s+/);
const executable = cmdParts[0];
if (!ALLOWED_COMMANDS.includes(executable)) { 403; return; }
const wsPath = getWorkspacePath(req.params.id);
for (const arg of cmdParts.slice(1)) {
  if (arg.startsWith('-')) continue;
  const resolved = path.resolve(wsPath, arg);
  if (!resolved.startsWith(wsPath)) { 403 'Path traversal detected'; return; }
}
... spawn(executable, cmdParts.slice(1), { cwd: wsPath, ... })
```

`path.resolve(base, arg)` for an absolute `base`: when `arg` is absolute
it normalizes `arg` alone, otherwise it normalizes `base ++ "/" ++ arg`;
normalization drops empty and `.` segments and lets `..` pop the previous
segment (or nothing at the root). -/

def ALLOWED_COMMANDS : List String :=
  ["python", "python3", "pip", "pip3", "jupyter", "ls", "cat", "head", "tail"]

/-- Splitting a character sequence at every character satisfying `p`
(kernel-reducible counterpart of JS `String.prototype.split`). -/
def chSplit (p : Char → Bool) : List Char → List (List Char)
  | [] => [[]]
  | c :: rest =>
    let r := chSplit p rest
    if p c then [] :: r
    else
      match r with
      | [] => [[c]]
      | h :: t => (c :: h) :: t

/-- JS `s.startsWith(pre)` (kernel-reducible). -/
def strStartsWith (s pre : String) : Bool :=
  pre.data.isPrefixOf s.data

def normSegs (segs : List String) : List String :=
  segs.foldl
    (fun acc seg =>
      if seg = "" || seg = "." then acc
      else if seg = ".." then acc.dropLast
      else acc ++ [seg])
    []

def joinSlash (parts : List String) : String :=
  match parts with
  | [] => ""
  | h :: t => t.foldl (fun acc s => acc ++ "/" ++ s) h

/-- `path.resolve(base, arg)` for an absolute `base`. -/
def pathResolve (base arg : String) : String :=
  let full := if strStartsWith arg ("/") then arg else base ++ "/" ++ arg
  let segs := (chSplit (fun c => c = '/') full.data).map (fun l => (⟨l⟩ : String))
  "/" ++ joinSlash (normSegs segs)

/-- `p` denotes a location inside the directory `root` (the root itself or a
path below it).  This is the property the spec's path-traversal guard claims;
the code instead tests the plain string prefix `p.startsWith(root)`. -/
def insideRoot (root p : String) : Bool :=
  p = root || strStartsWith p (root ++ "/")

def isWsChar (c : Char) : Bool := c = ' ' || c = '\t' || c = '\r' || c = '\n'

/-- `command.trim().split(/\s+/)`: the whitespace-separated tokens. -/
def cmdTokens (command : String) : List String :=
  ((chSplit isWsChar command.data).map (fun l => (⟨l⟩ : String))).filter
    (fun s => decide (s ≠ ""))

/-! ## The stdout line decoder of `spawnGeminiCli` (`server/src/index.ts`)

```
let buffer = '';
proc.stdout.on('data', (chunk: Buffer) => {
  buffer += chunk.toString();
  const lines = buffer.split('\n');
  buffer = lines.pop() || '';
  for (const line of lines) {
    if (!line.trim()) continue;
    try {
      const event: CliStreamEvent = JSON.parse(line);
      emitter.emit('event', event);
      emitter.emit(event.type, event);
    } catch {
      emitter.emit('log', line);
    }
  }
});
```

`JSON.parse` is an external primitive; the decoder is parametric in a
`parse` oracle returning `some` event on JSON success and `none` on
failure.  Chunks and lines are character sequences (JS strings). -/

inductive Emission where
  | event (e : CliStreamEvent)
  | typed (t : String) (e : CliStreamEvent)
  | log (line : String)
deriving DecidableEq, Repr

/-- JS `!line.trim()`: the line is empty or all-whitespace. -/
def isBlank (l : List Char) : Bool :=
  l.all (fun c => c = ' ' || c = '\t' || c = '\r')

/-- The body of the `for (const line of lines)` loop for one complete line. -/
def processLine (parse : List Char → Option CliStreamEvent)
    (line : List Char) : List Emission :=
  if isBlank line then []
  else
    match parse line with
    | some e => [.event e, .typed e.type e]
    | none => [.log ⟨line⟩]

structure Decoder where
  buffer : List Char
deriving DecidableEq, Repr

def newline (c : Char) : Bool := c = '\n'

/-- One `data` callback: append the chunk, split, keep the trailing
fragment, process each complete line. -/
def feed (parse : List Char → Option CliStreamEvent)
    (d : Decoder) (chunk : List Char) : Decoder × List Emission :=
  let parts := chSplit newline (d.buffer ++ chunk)
  (⟨parts.getLastD []⟩, (parts.dropLast.map (processLine parse)).flatten)

/-- A whole sequence of `data` callbacks, accumulating emissions in order. -/
def feedAll (parse : List Char → Option CliStreamEvent)
    (d : Decoder) : List (List Char) → Decoder × List Emission
  | [] => (d, [])
  | c :: cs =>
    let fst := feed parse d c
    let rest := feedAll parse fst.1 cs
    (rest.1, fst.2 ++ rest.2)

/-- The effect of `chSplit` on `c :: x` when `c` is not a separator: `c` is
prepended to the first fragment. -/
def consHead (c : Char) : List (List Char) → List (List Char)
  | [] => [[c]]
  | h :: t => (c :: h) :: t

/-- How the fragments of `a` and of `b` combine into the fragments of
`a ++ b`: the last (incomplete) fragment of `a` merges with the first
fragment of `b`. -/
def mergeHead (l : List Char) : List (List Char) → List (List Char)
  | [] => [l]
  | h :: t => (l ++ h) :: t

inductive ExecOutcome where
  | badRequest
  | notAllowed (exe : String)
  | traversal
  | spawned (exe : String) (args : List String)
deriving DecidableEq, Repr

/-- POST `/:id/execute`, up to the spawn decision.  `wsPath` is the
experiment's workspace path (`getWorkspacePath`); the body is `command`. -/
def executeHandler (wsPath : String) (command : Option String) : ExecOutcome :=
  match command with
  | none => .badRequest
  | some cmd =>
    if cmd = "" then .badRequest
    else
      match cmdTokens cmd with
      | [] => .notAllowed ""
      | exe :: args =>
        if exe ∉ ALLOWED_COMMANDS then .notAllowed exe
        else if args.any
            (fun a => !strStartsWith a ("-") &&
              !strStartsWith (pathResolve wsPath a) wsPath)
          then .traversal
        else .spawned exe args

/-! ## Session registry and broadcaster (`server/src/lib/session-store.ts`)
and orchestration handlers (`server/src/routes/research.ts`)

The server state holds:

* `heap`: every `ResearchSession` object ever created, keyed by a creation
  index (`gen`).  JS closures capture session *objects*; a handler or
  subprocess callback that captured a session keeps mutating that object
  even after the registry entry was overwritten, so objects outlive their
  registry entries.
* `registry`: the module-level `sessions: Map<string, ResearchSession>`,
  mapping an experiment id to the `gen` of its current session object.
* `procs`: every spawned `CliRunner`, with the session object (`owner`),
  experiment id and response sink its listeners captured, which handler
  wired it (`wiring`), and its liveness flags.
* `sinks`: every HTTP streaming response, with the events written to it and
  how many times `res.end()` was called on it.
* `startInvs` / `chatInvs`: bookkeeping for in-flight handler invocations of
  POST `/start` and POST `/:id/chat`, which suspend at `await` points;
  `stage` records which atomic segment runs next.

Handlers are split into the atomic segments between `await` points:
`/start` runs `start1` (validation + cleanup of a running session), awaits
`scaffoldWorkspace`, runs `startSeg2` (create session, attach the request
as first sink, broadcast a progress message), performs the deep-research
fetch/poll loop (broadcasting `opThought` messages), and finally runs
`startSeg3` (broadcast, spawn the CLI runner, wire it) — or `startSegFail`
(the `catch` block) if the fetch/poll threw.  `/:id/chat` runs `chatSeg1`
(lookup/create, abort a running runner and close its sinks), awaits
`appendChatMessage`, then `chatSeg2` (spawn, wire, attach the request as a
sink).  `/:id/abort`, `/:id/events` and `/:id/status` have no `await` and
are single segments. -/

structure ResearchSession where
  experimentId : String
  cliSessionId : Option String
  status : SessionStatus
  startedAt : Nat
  runner : Option Nat
  events : List CliStreamEvent
  sseClients : List Nat
deriving DecidableEq, Repr

inductive WiringKind where
  | startWiring
  | chatWiring
deriving DecidableEq, Repr

structure ProcState where
  owner : Nat
  xid : String
  wiring : WiringKind
  resSink : Nat
  killed : Bool
  exited : Bool
  spawnFailed : Bool
deriving DecidableEq, Repr

structure SinkState where
  writes : List CliStreamEvent
  endCount : Nat
deriving DecidableEq, Repr

structure StartInv where
  xid : String
  sink : Nat
  gen : Nat
  stage : Nat
deriving DecidableEq, Repr

structure ChatInv where
  xid : String
  sink : Nat
  gen : Nat
  stage : Nat
deriving DecidableEq, Repr

structure ServerState where
  heap : List (Nat × ResearchSession)
  registry : List (String × Nat)
  procs : List (Nat × ProcState)
  sinks : List (Nat × SinkState)
  startInvs : List (Nat × StartInv)
  chatInvs : List (Nat × ChatInv)
  nextGen : Nat
  nextProc : Nat
deriving DecidableEq, Repr

def initialState : ServerState := ⟨[], [], [], [], [], [], 0, 0⟩

def getSessionGen (s : ServerState) (xid : String) : Option Nat :=
  alGet s.registry xid

/-- `getSession` of `session-store.ts`: the registry's current session
object for the id. -/
def getSession (s : ServerState) (xid : String) : Option ResearchSession :=
  match getSessionGen s xid with
  | none => none
  | some g => alGet s.heap g

/-- Mutation of the session *object* `g` (field assignments through a
captured reference). -/
def updateHeap (s : ServerState) (g : Nat)
    (f : ResearchSession → ResearchSession) : ServerState :=
  match alGet s.heap g with
  | none => s
  | some sess => { s with heap := alSet s.heap g (f sess) }

/-- `createSession` of `session-store.ts` (both call sites pass a null
runner): a fresh object in status `running`, overwriting any registry entry
for the id. -/
def createSession (s : ServerState) (xid : String) : ServerState × Nat :=
  let g := s.nextGen
  let sess : ResearchSession :=
    { experimentId := xid, cliSessionId := none, status := .running,
      startedAt := 0, runner := none, events := [], sseClients := [] }
  ({ s with
      heap := alSet s.heap g sess
      registry := alSet s.registry xid g
      nextGen := g + 1 }, g)

/-- `runner.abort()` at the orchestration level: SIGTERM is delivered to
the runner's process unless it already exited (or never spawned), after
which the process is no longer counted as live. -/
def abortProc (s : ServerState) (p : Nat) : ServerState :=
  match alGet s.procs p with
  | none => s
  | some ps =>
    if ps.exited || ps.spawnFailed then s
    else { s with procs := alSet s.procs p { ps with killed := true } }

/-- `deleteSession` of `session-store.ts`: abort the held runner if present,
then remove the registry entry (the object itself survives in closures). -/
def deleteSession (s : ServerState) (xid : String) : ServerState :=
  match getSessionGen s xid with
  | none => s
  | some g =>
    let s₁ :=
      match alGet s.heap g with
      | some sess =>
        match sess.runner with
        | some p => abortProc s p
        | none => s
      | none => s
    { s₁ with registry := alErase s₁.registry xid }

/-- `addSseClient` of `session-store.ts`: add the response to the current
session's sink set (a JS `Set`: no duplicates). -/
def addSseClient (s : ServerState) (xid : String) (sink : Nat) : ServerState :=
  match getSessionGen s xid with
  | none => s
  | some g =>
    updateHeap s g (fun sess =>
      { sess with sseClients :=
          if sink ∈ sess.sseClients then sess.sseClients
          else sess.sseClients ++ [sink] })

def alWrite (l : List (Nat × SinkState)) (k : Nat) (e : CliStreamEvent) :
    List (Nat × SinkState) :=
  match alGet l k with
  | none => l
  | some sk => alSet l k { sk with writes := sk.writes ++ [e] }

/-- `client.write(data)` on one sink. -/
def writeSink (s : ServerState) (k : Nat) (e : CliStreamEvent) : ServerState :=
  { s with sinks := alWrite s.sinks k e }

def alEnd (l : List (Nat × SinkState)) (k : Nat) : List (Nat × SinkState) :=
  match alGet l k with
  | none => l
  | some sk => alSet l k { sk with endCount := sk.endCount + 1 }

/-- `client.end()` on one sink. -/
def endSink (s : ServerState) (k : Nat) : ServerState :=
  { s with sinks := alEnd s.sinks k }

def writeFold (s : ServerState) (ks : List Nat) (e : CliStreamEvent) :
    ServerState :=
  ks.foldl (fun st k => writeSink st k e) s

def endFold (s : ServerState) (ks : List Nat) : ServerState :=
  ks.foldl (fun st k => endSink st k) s

def replayFold (s : ServerState) (k : Nat) (es : List CliStreamEvent) :
    ServerState :=
  es.foldl (fun st e => writeSink st k e) s

/-- `broadcastEvent` of `session-store.ts`: no-op if the id has no session;
otherwise append the event to the session's log and write it to every
currently attached sink. -/
def broadcastEvent (s : ServerState) (xid : String) (e : CliStreamEvent) :
    ServerState :=
  match getSessionGen s xid with
  | none => s
  | some g =>
    match alGet s.heap g with
    | none => s
    | some sess =>
      let sess' := { sess with events := sess.events ++ [e] }
      let s₁ := { s with heap := alSet s.heap g sess' }
      writeFold s₁ sess.sseClients e

inductive HandlerResult where
  | ok
  | notFound
  | badRequest
deriving DecidableEq, Repr

structure StartRequest where
  experimentId : Option String
  hypothesis : Option String
deriving DecidableEq, Repr

/-- JS falsiness for the request's string fields: missing or empty. -/
def falsy : Option String → Bool
  | none => true
  | some s => s = ""

def startInvalid (r : StartRequest) : Bool :=
  falsy r.experimentId || falsy r.hypothesis

/-- The `/start` cleanup: if a session exists and is running, abort its
runner and delete it. -/
def startCleanup (s : ServerState) (xid : String) : ServerState :=
  match getSession s xid with
  | some sess =>
    if sess.status = .running then
      let s₁ :=
        match sess.runner with
        | some p => abortProc s p
        | none => s
      deleteSession s₁ xid
    else s
  | none => s

/-- POST `/start`, first segment: validation (400 before any side effect),
then cleanup; afterwards the handler suspends awaiting
`scaffoldWorkspace`. -/
def start1 (s : ServerState) (r : StartRequest) : HandlerResult × ServerState :=
  if startInvalid r then (.badRequest, s)
  else (.ok, startCleanup s (r.experimentId.getD ""))

def contactingMsg : CliStreamEvent :=
  msgEvent ("🔍 Contacting Gemini Deep Research Agent...")

def synthesizedMsg : CliStreamEvent :=
  msgEvent ("✅ Research synthesized. Starting Coding Agent...")

def abortedMsg : CliStreamEvent := errEvent ("Research aborted by user")

/-- POST `/start`, second segment (after the scaffold `await`):
`createSession`, attach the requesting response as first sink, broadcast
the contacting message; the handler then suspends in the deep-research
fetch/poll loop. -/
def startSeg2 (s : ServerState) (xid : String) (sink : Nat) :
    ServerState × Nat :=
  let c := createSession s xid
  let s₂ := addSseClient c.1 xid sink
  (broadcastEvent s₂ xid contactingMsg, c.2)

def spawnProc (s : ServerState) (g : Nat) (xid : String) (w : WiringKind)
    (resSink : Nat) : ServerState × Nat :=
  let p := s.nextProc
  let ps : ProcState :=
    { owner := g, xid := xid, wiring := w, resSink := resSink,
      killed := false, exited := false, spawnFailed := false }
  ({ s with
      procs := alSet s.procs p ps
      nextProc := p + 1 }, p)

/-- POST `/start`, final segment: broadcast the synthesized message, spawn
the CLI runner, assign it to the captured session object and wire its
listeners. -/
def startSeg3 (s : ServerState) (g : Nat) (xid : String) (sink : Nat) :
    ServerState :=
  let s₁ := broadcastEvent s xid synthesizedMsg
  let sp := spawnProc s₁ g xid .startWiring sink
  updateHeap sp.1 g (fun sess => { sess with runner := some sp.2, status := .running })

/-- POST `/start`, `catch` block: broadcast a workflow-failure error event
(the session object is otherwise untouched). -/
def startSegFail (s : ServerState) (xid : String) (emsg : String) :
    ServerState :=
  broadcastEvent s xid (errEvent ("Workflow failed: " ++ emsg))

/-- POST `/:id/chat`, lookup part: the registry's session or a fresh one in
status `running`, seeding `cliSessionId` from the caller's token when
creating. -/
def chatLookup (s : ServerState) (xid : String)
    (clientSessionId : Option String) : ServerState × Nat :=
  match getSessionGen s xid with
  | some g => (s, g)
  | none =>
    let c' := createSession s xid
    (if falsy clientSessionId then c'.1
     else updateHeap c'.1 c'.2
       (fun sess => { sess with cliSessionId := clientSessionId }), c'.2)

/-- POST `/:id/chat`, supersede part: if the session object is running with
a live runner, abort the runner, end and clear its sinks. -/
def chatAbortPhase (s : ServerState) (g : Nat) : ServerState :=
  match alGet s.heap g with
  | none => s
  | some sess =>
    if sess.status = .running && sess.runner.isSome then
      let s₂ :=
        match sess.runner with
        | some p => abortProc s p
        | none => s
      let s₃ := endFold s₂ sess.sseClients
      updateHeap s₃ g (fun ss => { ss with sseClients := [] })
    else s

/-- POST `/:id/chat`, first segment: lookup/create, then supersede; the
handler then suspends awaiting `appendChatMessage`. -/
def chatSeg1 (s : ServerState) (xid : String)
    (clientSessionId : Option String) : ServerState × Nat :=
  let c := chatLookup s xid clientSessionId
  (chatAbortPhase c.1 c.2, c.2)

/-- POST `/:id/chat`, second segment: spawn the runner, assign it to the
captured session object, set `running`, attach the requesting response as
sink, wire the listeners. -/
def chatSeg2 (s : ServerState) (g : Nat) (xid : String) (sink : Nat) :
    ServerState :=
  let sp := spawnProc s g xid .chatWiring sink
  let s₂ := updateHeap sp.1 g
    (fun sess => { sess with runner := some sp.2, status := .running })
  addSseClient s₂ xid sink

/-- POST `/:id/abort`: 404 unless the session exists and is running;
otherwise abort the runner, set `aborted`, clear the runner reference,
broadcast the explanatory error event, end and clear all sinks. -/
def abortHandler (s : ServerState) (xid : String) :
    HandlerResult × ServerState :=
  match getSessionGen s xid with
  | none => (.notFound, s)
  | some g =>
    match alGet s.heap g with
    | none => (.notFound, s)
    | some sess =>
      if sess.status = .running then
        let s₁ :=
          match sess.runner with
          | some p => abortProc s p
          | none => s
        let s₂ := updateHeap s₁ g
          (fun ss => { ss with status := .aborted, runner := none })
        let s₃ := broadcastEvent s₂ xid abortedMsg
        let s₄ := endFold s₃ sess.sseClients
        (.ok, updateHeap s₄ g (fun ss => { ss with sseClients := [] }))
      else (.notFound, s)

/-- GET `/:id/events`: 404 if no session; otherwise replay the whole event
log to the new connection, then register it as a live sink iff the session
is still running — a terminal session instead gets a synthetic `done` event
and the connection is ended. -/
def eventsHandler (s : ServerState) (xid : String) (sink : Nat) :
    HandlerResult × ServerState :=
  match getSession s xid with
  | none => (.notFound, s)
  | some sess =>
    let s₁ := replayFold s sink sess.events
    if sess.status = .running then (.ok, addSseClient s₁ xid sink)
    else
      let s₂ := writeSink s₁ sink (doneNoCode sess.status)
      (.ok, endSink s₂ sink)

structure StatusResponse where
  status : String
  cliSessionId : Option String
  startedAt : Option Nat
  eventCount : Nat
deriving DecidableEq, Repr

/-- GET `/:id/status`: a pure read. -/
def statusHandler (s : ServerState) (xid : String) : StatusResponse :=
  match getSession s xid with
  | none =>
    { status := "idle", cliSessionId := none, startedAt := none,
      eventCount := 0 }
  | some sess =>
    { status := statusString sess.status, cliSessionId := sess.cliSessionId,
      startedAt := some sess.startedAt, eventCount := sess.events.length }

/-- The `event` listener of a spawned runner: capture the agent session
token from `init` events onto the captured session object, then broadcast
by experiment id. -/
def procEventStep (s : ServerState) (p : Nat) (e : CliStreamEvent) :
    ServerState :=
  match alGet s.procs p with
  | none => s
  | some ps =>
    let s₁ :=
      if e.type = "init" && e.session_id.isSome then
        updateHeap s ps.owner
          (fun sess => { sess with cliSessionId := e.session_id })
      else s
    broadcastEvent s₁ ps.xid e

/-- The `log` listener: non-JSON output is broadcast as an assistant
message. -/
def procLogStep (s : ServerState) (p : Nat) (line : String) : ServerState :=
  match alGet s.procs p with
  | none => s
  | some ps => broadcastEvent s ps.xid (msgEvent line)

/-- The common part of the `close` listener: mark the process exited, set
the captured session object's status from the exit code, clear its runner
reference, broadcast a `done` event. -/
def procCloseCore (s : ServerState) (ps : ProcState) (p : Nat)
    (code : Option Int) : ServerState :=
  let s₁ := { s with procs := alSet s.procs p { ps with exited := true } }
  let newStatus := if code = some 0 then SessionStatus.completed else .failed
  let s₂ := updateHeap s₁ ps.owner
    (fun sess => { sess with status := newStatus, runner := none })
  broadcastEvent s₂ ps.xid (doneEvent code newStatus)

/-- The sink closure the `/:id/chat` close listener performs on the
captured session object. -/
def closeChatCleanup (s : ServerState) (g : Nat) : ServerState :=
  match alGet s.heap g with
  | none => s
  | some sess =>
    let s₄ := endFold s sess.sseClients
    updateHeap s₄ g (fun ss => { ss with sseClients := [] })

/-- The `close` listener: `procCloseCore`, then — only in the `/:id/chat`
wiring — end and clear all sinks (the `/start` wiring of `research.ts`
omits that). -/
def procCloseStep (s : ServerState) (p : Nat) (code : Option Int) :
    ServerState :=
  match alGet s.procs p with
  | none => s
  | some ps =>
    let s₃ := procCloseCore s ps p code
    match ps.wiring with
    | .startWiring => s₃
    | .chatWiring => closeChatCleanup s₃ ps.owner

/-- The `spawn-error` listener: only the `/:id/chat` wiring registers one
(set `failed`, broadcast an error, end the requesting response — without
clearing the runner reference or the other sinks); the `/start` wiring of
`research.ts` registers none, so the emission is dropped. -/
def procSpawnErrorStep (s : ServerState) (p : Nat) (emsg : String) :
    ServerState :=
  match alGet s.procs p with
  | none => s
  | some ps =>
    let s₁ := { s with procs := alSet s.procs p { ps with spawnFailed := true } }
    match ps.wiring with
    | .startWiring => s₁
    | .chatWiring =>
      let s₂ := updateHeap s₁ ps.owner
        (fun sess => { sess with status := .failed })
      let s₃ := broadcastEvent s₂ ps.xid (errEvent emsg)
      endSink s₃ ps.resSink

/-- One atomic turn of the Node event loop. -/
inductive Op where
  | opStart1 (inv : Nat) (req : StartRequest) (sink : Nat)
  | opStart2 (inv : Nat)
  | opThought (inv : Nat) (text : String)
  | opStart3 (inv : Nat)
  | opStartFail (inv : Nat) (emsg : String)
  | opChat1 (inv : Nat) (xid : String) (sink : Nat)
      (clientSessionId : Option String)
  | opChat2 (inv : Nat)
  | opAbort (xid : String)
  | opEvents (xid : String) (sink : Nat)
  | opStatus (xid : String)
  | opProcEvent (p : Nat) (e : CliStreamEvent)
  | opProcLog (p : Nat) (line : String)
  | opProcClose (p : Nat) (code : Option Int)
  | opProcSpawnError (p : Nat) (emsg : String)
deriving DecidableEq, Repr

def freshInv (s : ServerState) (inv : Nat) : Bool :=
  (alGet s.startInvs inv).isNone && (alGet s.chatInvs inv).isNone

def newSink (s : ServerState) (k : Nat) : Option ServerState :=
  match alGet s.sinks k with
  | some _ => none
  | none => some { s with sinks := alSet s.sinks k { writes := [], endCount := 0 } }

/-- Apply one atomic step; `none` marks an ill-formed trace (segments out of
order, reused invocation or sink ids, callbacks of dead processes). -/
def applyOp (s : ServerState) : Op → Option ServerState
  | .opStart1 inv req sink =>
    if freshInv s inv then
      match newSink s sink with
      | none => none
      | some s₀ =>
        if startInvalid req then some s₀
        else
          let s₁ := startCleanup s₀ (req.experimentId.getD "")
          let si : StartInv :=
            { xid := req.experimentId.getD "", sink := sink, gen := 0,
              stage := 1 }
          some { s₁ with startInvs := alSet s₁.startInvs inv si }
    else none
  | .opStart2 inv =>
    match alGet s.startInvs inv with
    | some si =>
      if si.stage = 1 then
        let c := startSeg2 s si.xid si.sink
        let si' := { si with gen := c.2, stage := 2 }
        some { c.1 with startInvs := alSet c.1.startInvs inv si' }
      else none
    | none => none
  | .opThought inv text =>
    match alGet s.startInvs inv with
    | some si =>
      if si.stage = 2 then
        some (broadcastEvent s si.xid (msgEvent ("[Thinking] " ++ text)))
      else none
    | none => none
  | .opStart3 inv =>
    match alGet s.startInvs inv with
    | some si =>
      if si.stage = 2 then
        let s₁ := startSeg3 s si.gen si.xid si.sink
        let si' := { si with stage := 3 }
        some { s₁ with startInvs := alSet s₁.startInvs inv si' }
      else none
    | none => none
  | .opStartFail inv emsg =>
    match alGet s.startInvs inv with
    | some si =>
      if si.stage = 2 then
        let s₁ := startSegFail s si.xid emsg
        let si' := { si with stage := 3 }
        some { s₁ with startInvs := alSet s₁.startInvs inv si' }
      else none
    | none => none
  | .opChat1 inv xid sink clientSessionId =>
    if freshInv s inv then
      match newSink s sink with
      | none => none
      | some s₀ =>
        let c := chatSeg1 s₀ xid clientSessionId
        let ci : ChatInv := { xid := xid, sink := sink, gen := c.2, stage := 1 }
        some { c.1 with chatInvs := alSet c.1.chatInvs inv ci }
    else none
  | .opChat2 inv =>
    match alGet s.chatInvs inv with
    | some ci =>
      if ci.stage = 1 then
        let s₁ := chatSeg2 s ci.gen ci.xid ci.sink
        let ci' := { ci with stage := 2 }
        some { s₁ with chatInvs := alSet s₁.chatInvs inv ci' }
      else none
    | none => none
  | .opAbort xid => some (abortHandler s xid).2
  | .opEvents xid sink =>
    match newSink s sink with
    | none => none
    | some s₀ => some (eventsHandler s₀ xid sink).2
  | .opStatus _ => some s
  | .opProcEvent p e =>
    match alGet s.procs p with
    | some ps =>
      if !ps.exited && !ps.spawnFailed then some (procEventStep s p e)
      else none
    | none => none
  | .opProcLog p line =>
    match alGet s.procs p with
    | some ps =>
      if !ps.exited && !ps.spawnFailed then some (procLogStep s p line)
      else none
    | none => none
  | .opProcClose p code =>
    match alGet s.procs p with
    | some ps =>
      if !ps.exited && !ps.spawnFailed then some (procCloseStep s p code)
      else none
    | none => none
  | .opProcSpawnError p emsg =>
    match alGet s.procs p with
    | some ps =>
      if !ps.exited && !ps.spawnFailed then some (procSpawnErrorStep s p emsg)
      else none
    | none => none

/-- Run a trace from the freshly started server. -/
def run (ops : List Op) : Option ServerState :=
  ops.foldlM applyOp initialState

/-- The number of live OS processes whose listeners were wired to the given
experiment id: spawned, not signalled, not exited, spawn not failed. -/
def countAlive (s : ServerState) (xid : String) : Nat :=
  (s.procs.filter (fun pr =>
    decide (pr.2.xid = xid) && !pr.2.killed && !pr.2.exited &&
      !pr.2.spawnFailed)).length

/-- `s'` agrees with `s` on everything but the `sinks` table (writes to and
closures of response streams never touch sessions, registry or
processes). -/
def EqExceptSinks (s s' : ServerState) : Prop :=
  s'.heap = s.heap ∧ s'.registry = s.registry ∧ s'.procs = s.procs ∧
    s'.startInvs = s.startInvs ∧ s'.chatInvs = s.chatInvs ∧
    s'.nextGen = s.nextGen ∧ s'.nextProc = s.nextProc

/-- Bound on `heap` keys; holds in every reachable state and makes
`createSession` unable to clobber an existing session object. -/
def KeysBounded (s : ServerState) : Prop :=
  ∀ g, (alGet s.heap g).isSome → g < s.nextGen

/-- The per-step guarantees used for the append-only claim: the generation
counter never decreases, session objects are never deleted, a surviving
session object's event log is only extended, and the key bound is
preserved. -/
def GoodStep (s s' : ServerState) : Prop :=
  s.nextGen ≤ s'.nextGen ∧
    (∀ g, (alGet s.heap g).isSome → (alGet s'.heap g).isSome) ∧
    (∀ g sess sess', g < s.nextGen → alGet s.heap g = some sess →
      alGet s'.heap g = some sess' → sess.events <+: sess'.events) ∧
    (KeysBounded s → KeysBounded s')

/-- A sample `parse` oracle used to witness the decoder theorem: exactly the
two-character line `ok` parses, to a `message` event. -/
def parseDemo : List Char → Option CliStreamEvent :=
  fun l => if l = ("ok").data then some { type := "message" } else none

/-- A concrete one-session server state: session object 0 for `e1`,
running with runner 7 and the single attached sink 5. -/
def demoAbortState : ServerState :=
  { heap := [(0,
      { experimentId := "e1", cliSessionId := none, status := .running,
        startedAt := 0, runner := some 7, events := [], sseClients := [5] })]
    registry := [("e1", 0)]
    procs := [(7,
      { owner := 0, xid := "e1", wiring := .chatWiring, resSink := 5,
        killed := false, exited := false, spawnFailed := false })]
    sinks := [(5, { writes := [], endCount := 0 })]
    startInvs := []
    chatInvs := []
    nextGen := 1
    nextProc := 8 }

/-- A concrete state with a finished session holding two logged events and
a fresh, unattached sink 9. -/
def demoEventsState : ServerState :=
  { heap := [(0,
      { experimentId := "e2", cliSessionId := some ("tok"),
        status := .completed, startedAt := 0, runner := none,
        events := [msgEvent ("a"), errEvent ("b")], sseClients := [] })]
    registry := [("e2", 0)]
    procs := []
    sinks := [(9, { writes := [], endCount := 0 })]
    startInvs := []
    chatInvs := []
    nextGen := 1
    nextProc := 0 }

/-- A fully sequential trace at the HTTP level: follow-up, follow-up
(superseding the first), the superseded runner's exit notification, then a
third follow-up.  Each chat request runs to completion before the next
event-loop turn; the only asynchrony is the natural exit of the SIGTERMed
first runner. -/
def c1Trace : List Op :=
  [ .opChat1 0 ("e1") 100 none, .opChat2 0,
    .opChat1 1 ("e1") 101 none, .opChat2 1,
    .opProcClose 0 none,
    .opChat1 2 ("e1") 102 none, .opChat2 2 ]

/-- A normal `/start` run: request, scaffold, deep-research phase, spawn,
then the runner exits cleanly with code 0. -/
def c2Trace : List Op :=
  [ .opStart1 0 { experimentId := some ("e1"), hypothesis := some ("H") } 100,
    .opStart2 0, .opStart3 0, .opProcClose 0 (some 0) ]

/-- The session-present case of `broadcastEvent`, written with the helper
state. -/
def bumpEvents (s : ServerState) (g : Nat) (sess : ResearchSession)
    (e : CliStreamEvent) : ServerState :=
  { s with heap := alSet s.heap g { sess with events := sess.events ++ [e] } }

theorem alGet_alErase {κ β : Type} [DecidableEq κ] (l : List (κ × β))
    (k k' : κ) :
    alGet (alErase l k) k' = if k' = k then none else alGet l k' := by
  induction l with
  | nil => simp [alErase, alGet]
  | cons h t ih =>
    obtain ⟨k₀, v₀⟩ := h
    by_cases h₀ : k₀ = k
    · subst h₀
      by_cases h₁ : k₀ = k'
      · subst h₁; simp [alErase, alGet, ih]
      · simp [alErase, alGet, h₁, ih]
    · by_cases h₁ : k₀ = k'
      · subst h₁
        simp [alErase, h₀, alGet, ih]
      · simp [alErase, h₀, alGet, h₁, ih]

theorem alGet_alSet_self {κ β : Type} [DecidableEq κ] (l : List (κ × β))
    (k : κ) (v : β) : alGet (alSet l k v) k = some v := by
  simp [alSet, alGet]

theorem alGet_alSet_ne {κ β : Type} [DecidableEq κ] (l : List (κ × β))
    (k k' : κ) (v : β) (h : k' ≠ k) :
    alGet (alSet l k v) k' = alGet l k' := by
  have h' : ¬k = k' := fun hh => h hh.symm
  simp [alSet, alGet, h', alGet_alErase, h]

theorem chSplit_ne_nil (p : Char → Bool) (l : List Char) : chSplit p l ≠ [] := by
  cases l with
  | nil => simp [chSplit]
  | cons c rest =>
    simp only [chSplit]
    split
    · simp
    · split <;> simp

/-- A separator-free sequence is one single fragment. -/
theorem chSplit_no_sep (p : Char → Bool) (l : List Char)
    (h : ∀ c ∈ l, p c = false) : chSplit p l = [l] := by
  induction l with
  | nil => simp [chSplit]
  | cons c rest ih =>
    have hc : p c = false := h c (by simp)
    have hrest := ih (fun c' hc' => h c' (by simp [hc']))
    simp [chSplit, hc, hrest]

/-- The trailing fragment never contains a separator. -/
theorem chSplit_getLastD_no_sep (p : Char → Bool) (l : List Char) :
    ∀ c ∈ (chSplit p l).getLastD [], p c = false := by
  induction l with
  | nil => simp [chSplit]
  | cons c rest ih =>
    by_cases hc : p c = true
    · have he : chSplit p (c :: rest) = [] :: chSplit p rest := by
        simp [chSplit, hc]
      rw [he, List.getLastD_cons]
      exact ih
    · have hc' : p c = false := by simpa using hc
      cases hr : chSplit p rest with
      | nil => exact absurd hr (chSplit_ne_nil p rest)
      | cons h t =>
        have he : chSplit p (c :: rest) = (c :: h) :: t := by
          simp [chSplit, hc', hr]
        rw [hr] at ih
        rw [he]
        cases t with
        | nil =>
          rw [List.getLastD_cons] at *
          intro x hx
          rcases List.mem_cons.mp (by simpa using hx) with h₁ | h₁
          · subst h₁; exact hc'
          · exact ih x (by simpa using h₁)
        | cons h₂ t₂ =>
          rw [List.getLastD_cons, List.getLastD_cons] at *
          exact ih

theorem chSplit_cons (p : Char → Bool) (c : Char) (x : List Char) :
    chSplit p (c :: x) =
      if p c then [] :: chSplit p x else consHead c (chSplit p x) := by
  simp only [chSplit]
  split
  · rfl
  · cases h : chSplit p x <;> simp [consHead]

theorem getLastD_irrel {α : Type} (l : List α) (h : l ≠ []) (d d' : α) :
    l.getLastD d = l.getLastD d' := by
  cases l with
  | nil => exact absurd rfl h
  | cons a t => rw [List.getLastD_cons, List.getLastD_cons]

theorem getLastD_append {α : Type} (u v : List α) (d : α) (hv : v ≠ []) :
    (u ++ v).getLastD d = v.getLastD d := by
  induction u with
  | nil => rfl
  | cons h t ih =>
    have hne : t ++ v ≠ [] := by
      intro hx
      exact hv (List.append_eq_nil.mp hx).2
    calc (h :: t ++ v).getLastD d = (t ++ v).getLastD h := List.getLastD_cons ..
      _ = (t ++ v).getLastD d := getLastD_irrel _ hne _ _
      _ = v.getLastD d := ih

theorem consHead_glue (c : Char) (xs ys : List (List Char))
    (hxs : xs ≠ []) (hys : ys ≠ []) :
    consHead c (xs.dropLast ++ mergeHead (xs.getLastD []) ys) =
      (consHead c xs).dropLast ++
        mergeHead ((consHead c xs).getLastD []) ys := by
  cases xs with
  | nil => exact absurd rfl hxs
  | cons h t =>
    cases ys with
    | nil => exact absurd rfl hys
    | cons hy ty =>
      cases t with
      | nil => simp [consHead, mergeHead, List.getLastD_cons]
      | cons t₁ t'' => simp [consHead, mergeHead, List.getLastD_cons]

/-- Splitting a concatenation: all complete fragments of `a`, then the
trailing fragment of `a` merged onto the first fragment of `b`. -/
theorem chSplit_append (p : Char → Bool) (a b : List Char) :
    chSplit p (a ++ b) =
      (chSplit p a).dropLast ++
        mergeHead ((chSplit p a).getLastD []) (chSplit p b) := by
  induction a with
  | nil =>
    cases hb : chSplit p b with
    | nil => exact absurd hb (chSplit_ne_nil p b)
    | cons h t => simp [chSplit, mergeHead, hb]
  | cons c a' ih =>
    have hstep : (c :: a') ++ b = c :: (a' ++ b) := rfl
    rw [hstep, chSplit_cons, chSplit_cons]
    by_cases hc : p c = true
    · rw [if_pos hc, if_pos hc, ih]
      cases ha : chSplit p a' with
      | nil => exact absurd ha (chSplit_ne_nil p a')
      | cons h t =>
        simp [List.getLastD_cons, List.dropLast_cons₂]
    · rw [if_neg hc, if_neg hc, ih]
      exact consHead_glue c _ _ (chSplit_ne_nil p a') (chSplit_ne_nil p b)

theorem mergeHead_ne_nil (l : List Char) (ys : List (List Char)) :
    mergeHead l ys ≠ [] := by
  cases ys <;> simp [mergeHead]

/-- Prepending a separator-free prefix followed by one separator adds one
complete fragment in front. -/
theorem chSplit_prefix_sep (p : Char → Bool) (u v : List Char) (s : Char)
    (hu : ∀ c ∈ u, p c = false) (hs : p s = true) :
    chSplit p (u ++ s :: v) = u :: chSplit p v := by
  induction u with
  | nil => simp [chSplit, hs]
  | cons c rest ih =>
    have hc : p c = false := hu c (by simp)
    have ih' := ih (fun c' hc' => hu c' (by simp [hc']))
    simp [chSplit, hc, ih', chSplit_ne_nil]

/-- Incremental decoding from any separator-free buffer equals decoding the
whole concatenated input: the buffer retains the trailing incomplete
fragment and every complete line is processed exactly once, in order. -/
theorem feedAll_from_buffer (parse : List Char → Option CliStreamEvent)
    (buf : List Char) (hbuf : ∀ c ∈ buf, newline c = false)
    (chunks : List (List Char)) :
    feedAll parse ⟨buf⟩ chunks =
      (⟨(chSplit newline (buf ++ chunks.flatten)).getLastD []⟩,
       ((chSplit newline (buf ++ chunks.flatten)).dropLast.map
         (processLine parse)).flatten) := by
  induction chunks generalizing buf with
  | nil =>
    have h := chSplit_no_sep newline buf hbuf
    simp [feedAll, h]
  | cons ch cs ih =>
    have hbuf' := chSplit_getLastD_no_sep newline (buf ++ ch)
    have hih := ih ((chSplit newline (buf ++ ch)).getLastD []) hbuf'
    have hstep : feedAll parse ⟨buf⟩ (ch :: cs) =
        ((feedAll parse ⟨(chSplit newline (buf ++ ch)).getLastD []⟩ cs).1,
          ((chSplit newline (buf ++ ch)).dropLast.map
            (processLine parse)).flatten ++
            (feedAll parse ⟨(chSplit newline (buf ++ ch)).getLastD []⟩ cs).2) :=
      rfl
    rw [hstep, hih]
    have hJ : buf ++ (ch :: cs).flatten = (buf ++ ch) ++ cs.flatten := by
      simp
    rw [hJ, chSplit_append newline (buf ++ ch) cs.flatten]
    have hSBx : chSplit newline
        ((chSplit newline (buf ++ ch)).getLastD [] ++ cs.flatten) =
        mergeHead ((chSplit newline (buf ++ ch)).getLastD [])
          (chSplit newline cs.flatten) := by
      rw [chSplit_append newline _ cs.flatten, chSplit_no_sep newline _ hbuf']
      simp [List.getLastD_cons]
    rw [hSBx]
    rw [getLastD_append _ _ _ (mergeHead_ne_nil _ _),
      List.dropLast_append_of_ne_nil _ (mergeHead_ne_nil _ _)]
    simp

/-! ## Claims C1, C2, C4, C5, C8, C9 -/

/-- C1 (code bug): after `c1Trace`, two runners wired to experiment `e1`
are alive at once.  Follow-up #1 spawns runner 0; follow-up #2 aborts
runner 0 and spawns runner 1; runner 0's asynchronous `close` callback then
marks the shared session object `failed` and nulls its runner reference —
clobbering runner 1, which is still alive (first conjunct: after the first
five steps the session is `failed` with no runner reference while one live
runner exists, so even `/:id/abort` would report not-found).  Follow-up #3
therefore sees a non-running session, skips the abort, and spawns runner 2
while runner 1 is still alive: two live subprocesses for `e1` (second
conjunct), violating the single-live-subprocess invariant. -/
theorem two_live_runners_after_followups :
    (run (c1Trace.take 5)).map (fun s =>
      ((getSession s ("e1")).map (fun sess => (sess.status, sess.runner)),
        countAlive s ("e1"))) = some (some (.failed, none), 1) ∧
    (run c1Trace).map (fun s => countAlive s ("e1")) = some 2 := by
  decide

/-- C2 (code bug): after a clean `/start` run (`c2Trace`), the session has
reached the terminal status `completed` and its runner reference is
cleared, but its sink set still contains the start request's connection and
that sink was never ended (`endCount = 0`): the `/start` close handler
broadcasts `done` without closing or clearing the sinks, violating the
terminal-closure invariant. -/
theorem start_terminal_leaves_sinks_open :
    (run c2Trace).map (fun s =>
      ((getSession s ("e1")).map (fun sess =>
        (sess.status, sess.runner, sess.sseClients)),
       (alGet s.sinks 100).map (fun sk => sk.endCount))) =
      some (some (.completed, none, [100]), some 0) := by
  decide

/-- C4: the stdout decoder retains the incomplete trailing fragment across
reads and processes each complete line exactly once, in order (first
conjunct: chunk boundaries are invisible — decoding any chunking of the
input equals decoding the concatenated input, with the buffer holding the
trailing fragment); a line that parses yields a generic `event` emission
plus a kind-specific emission, and a line that does not parse yields a `log`
emission with the raw line; in particular an invalid line followed by a
valid line yields exactly one `log` and one typed emission, in that order
(second conjunct), and processing continues past the malformed line. -/
theorem stdout_decoder (parse : List Char → Option CliStreamEvent) :
    (∀ chunks : List (List Char),
      feedAll parse ⟨[]⟩ chunks =
        (⟨(chSplit newline chunks.flatten).getLastD []⟩,
         ((chSplit newline chunks.flatten).dropLast.map
           (processLine parse)).flatten)) ∧
    (∀ (l₁ l₂ : List Char) (e : CliStreamEvent),
      (∀ c ∈ l₁, newline c = false) → (∀ c ∈ l₂, newline c = false) →
      isBlank l₁ = false → isBlank l₂ = false →
      parse l₁ = none → parse l₂ = some e →
      feedAll parse ⟨[]⟩ [l₁ ++ '\n' :: (l₂ ++ ['\n'])] =
        (⟨[]⟩, [.log ⟨l₁⟩, .event e, .typed e.type e])) := by
  constructor
  · intro chunks
    simpa using feedAll_from_buffer parse [] (by simp) chunks
  · intro l₁ l₂ e h₁ h₂ hb₁ hb₂ hp₁ hp₂
    have hsplit : chSplit newline (l₁ ++ '\n' :: (l₂ ++ ['\n'])) =
        [l₁, l₂, []] := by
      rw [chSplit_prefix_sep newline l₁ _ '\n' h₁ (by decide)]
      rw [chSplit_prefix_sep newline l₂ _ '\n' h₂ (by decide)]
      rfl
    have hfeed : feedAll parse ⟨[]⟩ [l₁ ++ '\n' :: (l₂ ++ ['\n'])] =
        ((feed parse ⟨[]⟩ (l₁ ++ '\n' :: (l₂ ++ ['\n']))).1,
          (feed parse ⟨[]⟩ (l₁ ++ '\n' :: (l₂ ++ ['\n']))).2 ++ []) := rfl
    rw [hfeed]
    have hnil : ([] : List Char) ++ (l₁ ++ '\n' :: (l₂ ++ ['\n'])) =
        l₁ ++ '\n' :: (l₂ ++ ['\n']) := rfl
    simp only [feed, hnil, hsplit]
    simp [processLine, hb₁, hb₂, hp₁, hp₂]

/-- C4 (witness): one invalid line `bad` then one valid line `ok` in a
single chunk yield exactly `log`, `event`, `typed` in that order. -/
theorem stdout_decoder_witness :
    feedAll parseDemo ⟨[]⟩ [("bad").data ++ '\n' :: (("ok").data ++ ['\n'])] =
      (⟨[]⟩, [.log ("bad"), .event { type := "message" },
        .typed ("message") { type := "message" }]) := by
  exact (stdout_decoder parseDemo).2 (("bad").data) (("ok").data)
    { type := "message" } (by decide) (by decide) (by decide) (by decide)
    (by decide) (by decide)

/-- C5 (code bug): `CliRunner.abort` sends SIGTERM immediately, and calling it
on an already-exited process delivers no signal (a no-op); but for a live
process that does not exit during the 3-second grace period, the escalation
guard `if (!proc.killed)` is already `false` (Node sets `killed` as soon as
the SIGTERM was successfully *sent*), so SIGKILL is never delivered even
though the process has still not exited — contradicting the claimed
escalation.  The three conjuncts evaluate the abort on: a live process that
ignores SIGTERM; an already-exited process; an already-exited process whose
timer fires after further delay. -/
theorem abort_escalation_never_fires :
    ((abortRun ⟨false, false, []⟩ false).delivered = ["SIGTERM"] ∧
      (abortRun ⟨false, false, []⟩ false).exited = false ∧
      ("SIGKILL" ∈ (abortRun ⟨false, false, []⟩ false).delivered → False)) ∧
    (abortRun ⟨true, false, []⟩ false).delivered = [] ∧
    (abortRun ⟨true, false, []⟩ true).delivered = [] := by
  decide

/-- C8 (counterexample): with workspace root `/ws/e4`, the command
`cat ../e4evil/pw` has a non-flag argument resolving to `/ws/e4evil/pw`,
which lies outside the root, yet the handler spawns it: the guard is a plain
string-prefix test and `/ws/e4evil/pw` starts with the string `/ws/e4`.
This falsifies "every non-flag argument must resolve … to a path inside that
root; any violation is rejected … before any process is spawned". -/
theorem execute_traversal_guard_counterexample :
    executeHandler ("/ws/e4") (some ("cat ../e4evil/pw")) =
      .spawned ("cat") (["../e4evil/pw"]) ∧
    insideRoot ("/ws/e4") (pathResolve ("/ws/e4") ("../e4evil/pw")) = false := by
  decide

/-- C8 (amended): the execute handler spawns a command iff its leading token
is in the fixed allow-list and every non-flag argument's resolved path passes
the *string-prefix* test against the workspace path (not the stricter
"inside the root" property); every command failing either check is rejected
before the spawn decision. -/
theorem execute_guard_characterization (wsPath cmd : String)
    (exe : String) (args : List String) :
    executeHandler wsPath (some cmd) = .spawned exe args ↔
      cmd ≠ "" ∧ cmdTokens cmd = exe :: args ∧ exe ∈ ALLOWED_COMMANDS ∧
        ∀ a ∈ args, strStartsWith a ("-") = true ∨
          strStartsWith (pathResolve wsPath a) wsPath = true := by
  constructor
  · intro h
    by_cases hc : cmd = ""
    · simp [executeHandler, hc] at h
    · cases ht : cmdTokens cmd with
      | nil => simp [executeHandler, hc, ht] at h
      | cons e as =>
        by_cases ha : e ∈ ALLOWED_COMMANDS
        · by_cases hany : as.any
              (fun a => !strStartsWith a ("-") &&
                !strStartsWith (pathResolve wsPath a) wsPath) = true
          · simp [executeHandler, hc, ht, ha, hany] at h
          · have hfalse : as.any
                (fun a => !strStartsWith a ("-") &&
                  !strStartsWith (pathResolve wsPath a) wsPath) = false :=
              Bool.eq_false_iff.mpr hany
            simp [executeHandler, hc, ht, ha, hfalse] at h
            obtain ⟨he, has⟩ := h
            subst he; subst has
            refine ⟨hc, rfl, ha, ?_⟩
            intro a hmem
            have h₂ := List.any_eq_false.mp hfalse a hmem
            cases hx : strStartsWith a ("-") with
            | true => exact Or.inl rfl
            | false =>
              right
              cases hy : strStartsWith (pathResolve wsPath a) wsPath with
              | true => rfl
              | false => rw [hx, hy] at h₂; simp at h₂
        · simp [executeHandler, hc, ht, ha] at h
  · rintro ⟨hc, ht, ha, hargs⟩
    have hfalse : args.any
        (fun a => !strStartsWith a ("-") &&
          !strStartsWith (pathResolve wsPath a) wsPath) = false := by
      apply List.any_eq_false.mpr
      intro a hmem
      rcases hargs a hmem with h₁ | h₁ <;> simp [h₁]
    simp [executeHandler, hc, ht, ha, hfalse]

/-- C8 (witness for the amended theorem): a concrete command passing both
checks is spawned. -/
theorem execute_guard_characterization_witness :
    executeHandler ("/ws/e4") (some ("python exp/run.py --fast")) =
      .spawned ("python") (["exp/run.py", "--fast"]) := by
  refine (execute_guard_characterization ("/ws/e4") ("python exp/run.py --fast")
    ("python") (["exp/run.py", "--fast"])).mpr ?_
  refine ⟨by decide, by decide, by decide, ?_⟩
  decide

/-- C9: `getWorkspacePath` joins the workspace root with the experiment id
after deleting every character outside `[A-Za-z0-9_-]`; hence ids that agree
after that deletion share a workspace directory, and an id with no allowed
characters at all maps to the workspace root itself. -/
theorem getWorkspacePath_sanitizes :
    (∀ root experimentId, getWorkspacePath root experimentId =
      pathJoin root (sanitizeId experimentId)) ∧
    (∀ root id₁ id₂, sanitizeId id₁ = sanitizeId id₂ →
      getWorkspacePath root id₁ = getWorkspacePath root id₂) ∧
    (∀ root experimentId,
      experimentId.data.all (fun c => !allowedChar c) →
      getWorkspacePath root experimentId = root) := by
  refine ⟨fun _ _ => rfl, fun root id₁ id₂ h => by simp [getWorkspacePath, h], ?_⟩
  intro root experimentId h
  have hnil : experimentId.data.filter allowedChar = [] := by
    apply List.filter_eq_nil_iff.mpr
    intro c hc
    have := List.all_eq_true.mp h c hc
    simp at this
    simp [this]
  have hempty : sanitizeId experimentId = "" := by
    simp [sanitizeId, hnil]
  simp [getWorkspacePath, hempty, pathJoin]

/-- C9 (witness): `e@1!` and `e1` share a directory; `!!!` maps to the root. -/
theorem getWorkspacePath_sanitizes_witness :
    getWorkspacePath ("/r") ("e@1!") = getWorkspacePath ("/r") ("e1") ∧
    getWorkspacePath ("/r") ("!!!") = "/r" := by
  exact ⟨getWorkspacePath_sanitizes.2.1 ("/r") ("e@1!") ("e1") (by decide),
    getWorkspacePath_sanitizes.2.2 ("/r") ("!!!") (by decide)⟩

/-! ## Lemmas about the sink folds -/

theorem eqExceptSinks_refl (s : ServerState) : EqExceptSinks s s :=
  ⟨rfl, rfl, rfl, rfl, rfl, rfl, rfl⟩

theorem eqExceptSinks_trans {s s₁ s₂ : ServerState}
    (h₁ : EqExceptSinks s s₁) (h₂ : EqExceptSinks s₁ s₂) :
    EqExceptSinks s s₂ := by
  obtain ⟨a₁, b₁, c₁, d₁, e₁, f₁, g₁⟩ := h₁
  obtain ⟨a₂, b₂, c₂, d₂, e₂, f₂, g₂⟩ := h₂
  exact ⟨a₂.trans a₁, b₂.trans b₁, c₂.trans c₁, d₂.trans d₁, e₂.trans e₁,
    f₂.trans f₁, g₂.trans g₁⟩

theorem eqExceptSinks_writeSink (s : ServerState) (k : Nat)
    (e : CliStreamEvent) : EqExceptSinks s (writeSink s k e) :=
  ⟨rfl, rfl, rfl, rfl, rfl, rfl, rfl⟩

theorem eqExceptSinks_endSink (s : ServerState) (k : Nat) :
    EqExceptSinks s (endSink s k) :=
  ⟨rfl, rfl, rfl, rfl, rfl, rfl, rfl⟩

theorem eqExceptSinks_writeFold (s : ServerState) (ks : List Nat)
    (e : CliStreamEvent) : EqExceptSinks s (writeFold s ks e) := by
  induction ks generalizing s with
  | nil => exact eqExceptSinks_refl s
  | cons k t ih =>
    exact eqExceptSinks_trans (eqExceptSinks_writeSink s k e)
      (ih (writeSink s k e))

theorem eqExceptSinks_endFold (s : ServerState) (ks : List Nat) :
    EqExceptSinks s (endFold s ks) := by
  induction ks generalizing s with
  | nil => exact eqExceptSinks_refl s
  | cons k t ih =>
    exact eqExceptSinks_trans (eqExceptSinks_endSink s k)
      (ih (endSink s k))

theorem eqExceptSinks_replayFold (s : ServerState) (k : Nat)
    (es : List CliStreamEvent) : EqExceptSinks s (replayFold s k es) := by
  induction es generalizing s with
  | nil => exact eqExceptSinks_refl s
  | cons e t ih =>
    exact eqExceptSinks_trans (eqExceptSinks_writeSink s k e)
      (ih (writeSink s k e))

theorem alGet_alWrite (l : List (Nat × SinkState)) (j k : Nat)
    (e : CliStreamEvent) :
    alGet (alWrite l j e) k =
      if j = k then
        (alGet l k).map (fun sk => { sk with writes := sk.writes ++ [e] })
      else alGet l k := by
  by_cases hjk : j = k
  · subst hjk
    simp only [alWrite, if_pos rfl]
    cases h : alGet l j with
    | none => simp [h]
    | some sk => simp [alGet_alSet_self]
  · simp only [alWrite, if_neg hjk]
    cases h : alGet l j with
    | none => rfl
    | some sk => exact alGet_alSet_ne _ _ _ _ (fun hh => hjk hh.symm)

theorem alGet_alEnd (l : List (Nat × SinkState)) (j k : Nat) :
    alGet (alEnd l j) k =
      if j = k then
        (alGet l k).map (fun sk => { sk with endCount := sk.endCount + 1 })
      else alGet l k := by
  by_cases hjk : j = k
  · subst hjk
    simp only [alEnd, if_pos rfl]
    cases h : alGet l j with
    | none => simp [h]
    | some sk => simp [alGet_alSet_self]
  · simp only [alEnd, if_neg hjk]
    cases h : alGet l j with
    | none => rfl
    | some sk => exact alGet_alSet_ne _ _ _ _ (fun hh => hjk hh.symm)

theorem writeFold_sinks_notMem (s : ServerState) (ks : List Nat)
    (e : CliStreamEvent) (k : Nat) (hk : k ∉ ks) :
    alGet (writeFold s ks e).sinks k = alGet s.sinks k := by
  induction ks generalizing s with
  | nil => rfl
  | cons j t ih =>
    have hj : j ≠ k := fun hh => hk (hh ▸ List.mem_cons_self j t)
    have hkt : k ∉ t := fun hh => hk (List.mem_cons_of_mem j hh)
    show alGet (writeFold (writeSink s j e) t e).sinks k = alGet s.sinks k
    rw [ih (writeSink s j e) hkt]
    show alGet (alWrite s.sinks j e) k = alGet s.sinks k
    rw [alGet_alWrite, if_neg hj]

theorem writeFold_sinks_mem (s : ServerState) (ks : List Nat)
    (e : CliStreamEvent) (k : Nat) (hk : k ∈ ks) (hnd : ks.Nodup) :
    alGet (writeFold s ks e).sinks k =
      (alGet s.sinks k).map
        (fun sk => { sk with writes := sk.writes ++ [e] }) := by
  induction ks generalizing s with
  | nil => cases hk
  | cons j t ih =>
    have hnd' : t.Nodup := (List.nodup_cons.mp hnd).2
    by_cases hjk : j = k
    · subst hjk
      have hkt : j ∉ t := (List.nodup_cons.mp hnd).1
      show alGet (writeFold (writeSink s j e) t e).sinks j = _
      rw [writeFold_sinks_notMem _ _ _ _ hkt]
      show alGet (alWrite s.sinks j e) j = _
      rw [alGet_alWrite, if_pos rfl]
    · have hkt : k ∈ t := by
        rcases List.mem_cons.mp hk with h | h
        · exact absurd h.symm hjk
        · exact h
      show alGet (writeFold (writeSink s j e) t e).sinks k = _
      rw [ih (writeSink s j e) hkt hnd']
      show ((alGet (alWrite s.sinks j e) k).map _) = _
      rw [alGet_alWrite, if_neg hjk]

theorem endFold_sinks_notMem (s : ServerState) (ks : List Nat) (k : Nat)
    (hk : k ∉ ks) :
    alGet (endFold s ks).sinks k = alGet s.sinks k := by
  induction ks generalizing s with
  | nil => rfl
  | cons j t ih =>
    have hj : j ≠ k := fun hh => hk (hh ▸ List.mem_cons_self j t)
    have hkt : k ∉ t := fun hh => hk (List.mem_cons_of_mem j hh)
    show alGet (endFold (endSink s j) t).sinks k = alGet s.sinks k
    rw [ih (endSink s j) hkt]
    show alGet (alEnd s.sinks j) k = alGet s.sinks k
    rw [alGet_alEnd, if_neg hj]

theorem endFold_sinks_mem (s : ServerState) (ks : List Nat) (k : Nat)
    (hk : k ∈ ks) (hnd : ks.Nodup) :
    alGet (endFold s ks).sinks k =
      (alGet s.sinks k).map
        (fun sk => { sk with endCount := sk.endCount + 1 }) := by
  induction ks generalizing s with
  | nil => cases hk
  | cons j t ih =>
    have hnd' : t.Nodup := (List.nodup_cons.mp hnd).2
    by_cases hjk : j = k
    · subst hjk
      have hkt : j ∉ t := (List.nodup_cons.mp hnd).1
      show alGet (endFold (endSink s j) t).sinks j = _
      rw [endFold_sinks_notMem _ _ _ hkt]
      show alGet (alEnd s.sinks j) j = _
      rw [alGet_alEnd, if_pos rfl]
    · have hkt : k ∈ t := by
        rcases List.mem_cons.mp hk with h | h
        · exact absurd h.symm hjk
        · exact h
      show alGet (endFold (endSink s j) t).sinks k = _
      rw [ih (endSink s j) hkt hnd']
      show ((alGet (alEnd s.sinks j) k).map _) = _
      rw [alGet_alEnd, if_neg hjk]

theorem replayFold_sinks_self (s : ServerState) (k : Nat)
    (es : List CliStreamEvent) :
    alGet (replayFold s k es).sinks k =
      (alGet s.sinks k).map
        (fun sk => { sk with writes := sk.writes ++ es }) := by
  induction es generalizing s with
  | nil =>
    cases h : alGet s.sinks k with
    | none => simp [replayFold, h]
    | some sk => simp [replayFold, h]
  | cons e t ih =>
    show alGet (replayFold (writeSink s k e) k t).sinks k = _
    rw [ih (writeSink s k e)]
    show ((alGet (alWrite s.sinks k e) k).map _) = _
    rw [alGet_alWrite, if_pos rfl]
    cases h : alGet s.sinks k with
    | none => rfl
    | some sk => simp

/-! ## Lemmas about `updateHeap` and `broadcastEvent` -/

theorem updateHeap_fields (s : ServerState) (g : Nat)
    (f : ResearchSession → ResearchSession) :
    (updateHeap s g f).registry = s.registry ∧
    (updateHeap s g f).sinks = s.sinks ∧
    (updateHeap s g f).procs = s.procs ∧
    (updateHeap s g f).nextGen = s.nextGen ∧
    (updateHeap s g f).startInvs = s.startInvs ∧
    (updateHeap s g f).chatInvs = s.chatInvs ∧
    (updateHeap s g f).nextProc = s.nextProc := by
  unfold updateHeap
  split <;> exact ⟨rfl, rfl, rfl, rfl, rfl, rfl, rfl⟩

theorem alGet_updateHeap_self (s : ServerState) (g : Nat)
    (f : ResearchSession → ResearchSession) :
    alGet (updateHeap s g f).heap g = (alGet s.heap g).map f := by
  unfold updateHeap
  cases h : alGet s.heap g with
  | none => simp [h]
  | some sess => simp [h, alGet_alSet_self]

theorem alGet_updateHeap_ne (s : ServerState) (g : Nat)
    (f : ResearchSession → ResearchSession) (g' : Nat) (hne : g' ≠ g) :
    alGet (updateHeap s g f).heap g' = alGet s.heap g' := by
  unfold updateHeap
  cases h : alGet s.heap g with
  | none => rfl
  | some sess =>
    show alGet (alSet s.heap g (f sess)) g' = alGet s.heap g'
    exact alGet_alSet_ne _ _ _ _ hne

theorem broadcastEvent_absent (s : ServerState) (xid : String)
    (e : CliStreamEvent) (h : getSession s xid = none) :
    broadcastEvent s xid e = s := by
  unfold broadcastEvent
  cases hg : getSessionGen s xid with
  | none => rfl
  | some g =>
    have hh : alGet s.heap g = none := by
      unfold getSession at h
      rw [hg] at h
      exact h
    simp [hh]

theorem broadcastEvent_present (s : ServerState) (xid : String)
    (e : CliStreamEvent) (g : Nat) (sess : ResearchSession)
    (hg : getSessionGen s xid = some g) (hh : alGet s.heap g = some sess) :
    broadcastEvent s xid e =
      writeFold (bumpEvents s g sess e) sess.sseClients e := by
  simp only [broadcastEvent, bumpEvents, hg, hh]

theorem broadcastEvent_heap_self (s : ServerState) (xid : String)
    (e : CliStreamEvent) (g : Nat) (sess : ResearchSession)
    (hg : getSessionGen s xid = some g) (hh : alGet s.heap g = some sess) :
    alGet (broadcastEvent s xid e).heap g =
      some { sess with events := sess.events ++ [e] } := by
  rw [broadcastEvent_present s xid e g sess hg hh,
    (eqExceptSinks_writeFold _ _ _).1]
  exact alGet_alSet_self _ _ _

theorem broadcastEvent_heap_ne (s : ServerState) (xid : String)
    (e : CliStreamEvent) (g : Nat) (sess : ResearchSession) (g' : Nat)
    (hg : getSessionGen s xid = some g) (hh : alGet s.heap g = some sess)
    (hne : g' ≠ g) :
    alGet (broadcastEvent s xid e).heap g' = alGet s.heap g' := by
  rw [broadcastEvent_present s xid e g sess hg hh,
    (eqExceptSinks_writeFold _ _ _).1]
  exact alGet_alSet_ne _ _ _ _ hne

theorem broadcastEvent_registry (s : ServerState) (xid : String)
    (e : CliStreamEvent) :
    (broadcastEvent s xid e).registry = s.registry := by
  cases hg : getSessionGen s xid with
  | none => simp only [broadcastEvent, hg]
  | some g =>
    cases hh : alGet s.heap g with
    | none => simp only [broadcastEvent, hg, hh]
    | some sess =>
      simp only [broadcastEvent, hg, hh]
      exact (eqExceptSinks_writeFold _ _ _).2.1

theorem broadcastEvent_nextGen (s : ServerState) (xid : String)
    (e : CliStreamEvent) :
    (broadcastEvent s xid e).nextGen = s.nextGen := by
  cases hg : getSessionGen s xid with
  | none => simp only [broadcastEvent, hg]
  | some g =>
    cases hh : alGet s.heap g with
    | none => simp only [broadcastEvent, hg, hh]
    | some sess =>
      simp only [broadcastEvent, hg, hh]
      exact (eqExceptSinks_writeFold _ _ _).2.2.2.2.2.1

theorem abortHandler_no_session (s : ServerState) (xid : String)
    (h : getSession s xid = none) : abortHandler s xid = (.notFound, s) := by
  cases hg : getSessionGen s xid with
  | none => simp only [abortHandler, hg]
  | some g =>
    have hh : alGet s.heap g = none := by
      unfold getSession at h
      rw [hg] at h
      exact h
    simp only [abortHandler, hg, hh]

theorem abortHandler_not_running (s : ServerState) (xid : String) (g : Nat)
    (sess : ResearchSession) (hg : getSessionGen s xid = some g)
    (hh : alGet s.heap g = some sess) (hns : sess.status ≠ .running) :
    abortHandler s xid = (.notFound, s) := by
  simp only [abortHandler, hg, hh]
  rw [if_neg hns]

theorem abortHandler_running_eq (s : ServerState) (xid : String) (g : Nat)
    (sess : ResearchSession) (hg : getSessionGen s xid = some g)
    (hh : alGet s.heap g = some sess) (hrun : sess.status = .running) :
    abortHandler s xid =
      (.ok, updateHeap (endFold (broadcastEvent (updateHeap
        (match sess.runner with | some p => abortProc s p | none => s)
        g (fun ss => { ss with status := .aborted, runner := none }))
        xid abortedMsg) sess.sseClients) g
        (fun ss => { ss with sseClients := [] })) := by
  simp only [abortHandler, hg, hh, hrun, if_pos]

/-- The state manipulation shared by the running-abort analysis: `s₁` is
the state after the optional `runner.abort()` (which only touches
`procs`). -/
theorem abort_running_chain (s s₁ : ServerState) (xid : String) (g : Nat)
    (sess : ResearchSession) (hg : getSessionGen s xid = some g)
    (hh : alGet s.heap g = some sess)
    (hfh : s₁.heap = s.heap) (hfr : s₁.registry = s.registry)
    (hfs : s₁.sinks = s.sinks) :
    getSessionGen (updateHeap (endFold (broadcastEvent (updateHeap s₁ g
        (fun ss => { ss with status := .aborted, runner := none }))
        xid abortedMsg) sess.sseClients) g
        (fun ss => { ss with sseClients := [] })) xid = some g ∧
    alGet (updateHeap (endFold (broadcastEvent (updateHeap s₁ g
        (fun ss => { ss with status := .aborted, runner := none }))
        xid abortedMsg) sess.sseClients) g
        (fun ss => { ss with sseClients := [] })).heap g =
      some { sess with
        status := .aborted
        runner := none
        events := sess.events ++ [abortedMsg]
        sseClients := [] } ∧
    (sess.sseClients.Nodup → ∀ k ∈ sess.sseClients, ∀ sk,
      alGet s.sinks k = some sk →
      alGet (updateHeap (endFold (broadcastEvent (updateHeap s₁ g
          (fun ss => { ss with status := .aborted, runner := none }))
          xid abortedMsg) sess.sseClients) g
          (fun ss => { ss with sseClients := [] })).sinks k =
        some { writes := sk.writes ++ [abortedMsg],
               endCount := sk.endCount + 1 }) := by
  have hh₂ : alGet (updateHeap s₁ g
      (fun ss => { ss with status := .aborted, runner := none })).heap g =
      some { sess with status := .aborted, runner := none } := by
    rw [alGet_updateHeap_self, hfh, hh]
    rfl
  have hg₂ : getSessionGen (updateHeap s₁ g
      (fun ss => { ss with status := .aborted, runner := none })) xid =
      some g := by
    show alGet (updateHeap s₁ g _).registry xid = some g
    rw [(updateHeap_fields _ _ _).1, hfr]
    exact hg
  have hpres := broadcastEvent_present _ xid abortedMsg g _ hg₂ hh₂
  have hbh : alGet (broadcastEvent (updateHeap s₁ g
      (fun ss => { ss with status := .aborted, runner := none }))
      xid abortedMsg).heap g =
      some { sess with
        status := .aborted
        runner := none
        events := sess.events ++ [abortedMsg] } := by
    rw [broadcastEvent_heap_self _ xid abortedMsg g _ hg₂ hh₂]
  have hbr : (broadcastEvent (updateHeap s₁ g
      (fun ss => { ss with status := .aborted, runner := none }))
      xid abortedMsg).registry = s.registry := by
    rw [broadcastEvent_registry, (updateHeap_fields _ _ _).1, hfr]
  have hbs : ∀ k ∈ sess.sseClients, sess.sseClients.Nodup → ∀ sk,
      alGet s.sinks k = some sk →
      alGet (broadcastEvent (updateHeap s₁ g
        (fun ss => { ss with status := .aborted, runner := none }))
        xid abortedMsg).sinks k =
        some { sk with writes := sk.writes ++ [abortedMsg] } := by
    intro k hk hnd sk hsk
    rw [hpres]
    have hsc : ({ sess with status := SessionStatus.aborted, runner := none } : ResearchSession).sseClients = sess.sseClients := rfl
    rw [hsc, writeFold_sinks_mem _ _ _ _ hk hnd]
    have hbump : (bumpEvents (updateHeap s₁ g
        (fun ss => { ss with status := .aborted, runner := none })) g
        { sess with status := .aborted, runner := none }
        abortedMsg).sinks = s.sinks := by
      show (updateHeap s₁ g _).sinks = s.sinks
      rw [(updateHeap_fields _ _ _).2.1, hfs]
    rw [hbump, hsk]
    rfl
  refine ⟨?_, ?_, ?_⟩
  · show alGet (updateHeap _ g _).registry xid = some g
    rw [(updateHeap_fields _ _ _).1, (eqExceptSinks_endFold _ _).2.1, hbr]
    exact hg
  · rw [alGet_updateHeap_self, (eqExceptSinks_endFold _ _).1, hbh]
    rfl
  · intro hnd k hk sk hsk
    rw [(updateHeap_fields _ _ _).2.1, endFold_sinks_mem _ _ _ hk hnd,
      hbs k hk hnd sk hsk]
    rfl

/-! ## `GoodStep` machinery for the append-only claim -/

theorem goodStep_refl (s : ServerState) : GoodStep s s := by
  refine ⟨Nat.le_refl _, fun g h => h, ?_, fun h => h⟩
  intro g sess sess' _ h1 h2
  rw [h1] at h2
  injection h2 with h
  rw [h]

theorem goodStep_trans {s s₁ s₂ : ServerState}
    (a : GoodStep s s₁) (b : GoodStep s₁ s₂) : GoodStep s s₂ := by
  obtain ⟨a1, a2, a3, a4⟩ := a
  obtain ⟨b1, b2, b3, b4⟩ := b
  refine ⟨Nat.le_trans a1 b1, fun g h => b2 g (a2 g h), ?_,
    fun h => b4 (a4 h)⟩
  intro g sess sess' hlt h1 h2
  have hsome : (alGet s₁.heap g).isSome := a2 g (by rw [h1]; rfl)
  obtain ⟨sessm, hm⟩ : ∃ m, alGet s₁.heap g = some m := by
    cases hx : alGet s₁.heap g with
    | none => rw [hx] at hsome; cases hsome
    | some m => exact ⟨m, rfl⟩
  exact (a3 g sess sessm hlt h1 hm).trans
    (b3 g sessm sess' (Nat.lt_of_lt_of_le hlt a1) hm h2)

theorem goodStep_of_heap_eq {s s' : ServerState}
    (hh : s'.heap = s.heap) (hg : s'.nextGen = s.nextGen) :
    GoodStep s s' := by
  refine ⟨by rw [hg], fun g h => by rw [hh]; exact h, ?_, ?_⟩
  · intro g sess sess' _ h1 h2
    rw [hh, h1] at h2
    injection h2 with h
    rw [h]
  · intro hk g hgs
    rw [hh] at hgs
    rw [hg]
    exact hk g hgs

theorem goodStep_updateHeap (s : ServerState) (g : Nat)
    (f : ResearchSession → ResearchSession)
    (hf : ∀ sess, sess.events <+: (f sess).events) :
    GoodStep s (updateHeap s g f) := by
  cases hx : alGet s.heap g with
  | none =>
    have he : updateHeap s g f = s := by
      unfold updateHeap
      rw [hx]
    rw [he]
    exact goodStep_refl s
  | some sess =>
    have hu : updateHeap s g f = { s with heap := alSet s.heap g (f sess) } := by
      unfold updateHeap
      rw [hx]
    rw [hu]
    refine ⟨Nat.le_refl _, ?_, ?_, ?_⟩
    · intro g' h
      show (alGet (alSet s.heap g (f sess)) g').isSome
      by_cases hgg : g' = g
      · subst hgg
        rw [alGet_alSet_self]
        rfl
      · rw [alGet_alSet_ne _ _ _ _ hgg]
        exact h
    · intro g' sess₁ sess₂ hlt h1 h2
      have h2' : alGet (alSet s.heap g (f sess)) g' = some sess₂ := h2
      by_cases hgg : g' = g
      · subst hgg
        rw [alGet_alSet_self] at h2'
        rw [h1] at hx
        injection hx with hx'
        injection h2' with h2''
        rw [← h2'', ← hx']
        exact hf sess₁
      · rw [alGet_alSet_ne _ _ _ _ hgg] at h2'
        rw [h1] at h2'
        injection h2' with h
        rw [h]
    · intro hk g' hgs
      have hgs' : (alGet (alSet s.heap g (f sess)) g').isSome := hgs
      show g' < s.nextGen
      by_cases hgg : g' = g
      · subst hgg
        exact hk g' (by rw [hx]; rfl)
      · rw [alGet_alSet_ne _ _ _ _ hgg] at hgs'
        exact hk g' hgs'

theorem goodStep_createSession (s : ServerState) (xid : String) :
    GoodStep s (createSession s xid).1 := by
  refine ⟨?_, ?_, ?_, ?_⟩
  · show s.nextGen ≤ s.nextGen + 1
    omega
  · intro g h
    show (alGet (alSet s.heap s.nextGen _) g).isSome
    by_cases hgg : g = s.nextGen
    · subst hgg
      rw [alGet_alSet_self]
      rfl
    · rw [alGet_alSet_ne _ _ _ _ hgg]
      exact h
  · intro g sess sess' hlt h1 h2
    have hgg : g ≠ s.nextGen := Nat.ne_of_lt hlt
    have h2' : alGet (alSet s.heap s.nextGen _) g = some sess' := h2
    rw [alGet_alSet_ne _ _ _ _ hgg] at h2'
    rw [h1] at h2'
    injection h2' with h
    rw [h]
  · intro hk g hgs
    show g < s.nextGen + 1
    have hgs' : (alGet (alSet s.heap s.nextGen _) g).isSome := hgs
    by_cases hgg : g = s.nextGen
    · omega
    · rw [alGet_alSet_ne _ _ _ _ hgg] at hgs'
      exact Nat.lt_succ_of_lt (hk g hgs')

theorem goodStep_broadcast (s : ServerState) (xid : String)
    (e : CliStreamEvent) : GoodStep s (broadcastEvent s xid e) := by
  cases hg : getSessionGen s xid with
  | none =>
    have he : broadcastEvent s xid e = s := by
      simp only [broadcastEvent, hg]
    rw [he]
    exact goodStep_refl s
  | some g =>
    cases hh : alGet s.heap g with
    | none =>
      have he : broadcastEvent s xid e = s := by
        simp only [broadcastEvent, hg, hh]
      rw [he]
      exact goodStep_refl s
    | some sess =>
      rw [broadcastEvent_present s xid e g sess hg hh]
      have hb : bumpEvents s g sess e =
          updateHeap s g (fun ss => { ss with events := ss.events ++ [e] }) := by
        unfold updateHeap bumpEvents
        rw [hh]
      rw [hb]
      refine goodStep_trans
        (goodStep_updateHeap s g _ (fun ss => List.prefix_append ss.events [e]))
        (goodStep_of_heap_eq (eqExceptSinks_writeFold _ _ _).1
          (eqExceptSinks_writeFold _ _ _).2.2.2.2.2.1)

theorem goodStep_eqExceptSinks {s s' : ServerState}
    (h : EqExceptSinks s s') : GoodStep s s' :=
  goodStep_of_heap_eq h.1 h.2.2.2.2.2.1

theorem goodStep_addSseClient (s : ServerState) (xid : String) (k : Nat) :
    GoodStep s (addSseClient s xid k) := by
  cases hg : getSessionGen s xid with
  | none =>
    have he : addSseClient s xid k = s := by
      simp only [addSseClient, hg]
    rw [he]
    exact goodStep_refl s
  | some g =>
    have he : addSseClient s xid k = updateHeap s g
        (fun sess => { sess with sseClients :=
          if k ∈ sess.sseClients then sess.sseClients
          else sess.sseClients ++ [k] }) := by
      simp only [addSseClient, hg]
    rw [he]
    exact goodStep_updateHeap s g _ (fun sess => List.prefix_refl _)

theorem abortProc_fields (s : ServerState) (p : Nat) :
    (abortProc s p).heap = s.heap ∧ (abortProc s p).registry = s.registry ∧
    (abortProc s p).sinks = s.sinks ∧ (abortProc s p).nextGen = s.nextGen := by
  unfold abortProc
  split
  · exact ⟨rfl, rfl, rfl, rfl⟩
  · split <;> exact ⟨rfl, rfl, rfl, rfl⟩

theorem deleteSession_fields (s : ServerState) (xid : String) :
    (deleteSession s xid).heap = s.heap ∧
    (deleteSession s xid).nextGen = s.nextGen ∧
    (deleteSession s xid).sinks = s.sinks := by
  cases hg : getSessionGen s xid with
  | none => simp [deleteSession, hg]
  | some g =>
    cases hh : alGet s.heap g with
    | none => simp [deleteSession, hg, hh]
    | some sess =>
      cases hr : sess.runner with
      | none => simp [deleteSession, hg, hh, hr]
      | some p =>
        simp only [deleteSession, hg, hh, hr]
        exact ⟨(abortProc_fields s p).1, (abortProc_fields s p).2.2.2,
          (abortProc_fields s p).2.2.1⟩

theorem goodStep_deleteSession (s : ServerState) (xid : String) :
    GoodStep s (deleteSession s xid) := by
  have hf := deleteSession_fields s xid
  exact goodStep_of_heap_eq hf.1 hf.2.1

theorem goodStep_abortProc (s : ServerState) (p : Nat) :
    GoodStep s (abortProc s p) :=
  goodStep_of_heap_eq (abortProc_fields s p).1 (abortProc_fields s p).2.2.2

theorem goodStep_startCleanup (s : ServerState) (xid : String) :
    GoodStep s (startCleanup s xid) := by
  cases h : getSession s xid with
  | none =>
    have he : startCleanup s xid = s := by
      simp only [startCleanup, h]
    rw [he]
    exact goodStep_refl s
  | some sess =>
    by_cases hrun : sess.status = .running
    · have he : startCleanup s xid = deleteSession
          (match sess.runner with
            | some p => abortProc s p
            | none => s) xid := by
        simp only [startCleanup, h, hrun, if_pos]
      rw [he]
      cases hr : sess.runner with
      | none => exact goodStep_deleteSession s xid
      | some p =>
        exact goodStep_trans (goodStep_abortProc s p)
          (goodStep_deleteSession _ xid)
    · have he : startCleanup s xid = s := by
        simp only [startCleanup, h]
        rw [if_neg hrun]
      rw [he]
      exact goodStep_refl s

theorem goodStep_spawnProc (s : ServerState) (g : Nat) (xid : String)
    (w : WiringKind) (rs : Nat) : GoodStep s (spawnProc s g xid w rs).1 :=
  goodStep_of_heap_eq rfl rfl

theorem goodStep_startSeg2 (s : ServerState) (xid : String) (sink : Nat) :
    GoodStep s (startSeg2 s xid sink).1 :=
  goodStep_trans (goodStep_createSession s xid)
    (goodStep_trans (goodStep_addSseClient _ xid sink)
      (goodStep_broadcast _ xid contactingMsg))

theorem goodStep_startSeg3 (s : ServerState) (g : Nat) (xid : String)
    (sink : Nat) : GoodStep s (startSeg3 s g xid sink) := by
  refine goodStep_trans ?_
    (goodStep_updateHeap _ _ _ (fun sess => List.prefix_refl _))
  refine goodStep_trans ?_ (goodStep_spawnProc _ g xid .startWiring sink)
  exact goodStep_broadcast s xid synthesizedMsg

theorem goodStep_startSegFail (s : ServerState) (xid : String)
    (emsg : String) : GoodStep s (startSegFail s xid emsg) :=
  goodStep_broadcast s xid _

theorem goodStep_chatLookup (s : ServerState) (xid : String)
    (csid : Option String) : GoodStep s (chatLookup s xid csid).1 := by
  cases hg : getSessionGen s xid with
  | some g =>
    have he : (chatLookup s xid csid).1 = s := by
      simp only [chatLookup, hg]
    rw [he]
    exact goodStep_refl s
  | none =>
    by_cases hc : falsy csid = true
    · have he : (chatLookup s xid csid).1 = (createSession s xid).1 := by
        simp [chatLookup, hg, hc]
      rw [he]
      exact goodStep_createSession s xid
    · have he : (chatLookup s xid csid).1 =
          updateHeap (createSession s xid).1 (createSession s xid).2
            (fun sess => { sess with cliSessionId := csid }) := by
        simp [chatLookup, hg, hc]
      rw [he]
      exact goodStep_trans (goodStep_createSession s xid)
        (goodStep_updateHeap _ _ _ (fun sess => List.prefix_refl _))

theorem goodStep_chatAbortPhase (s : ServerState) (g : Nat) :
    GoodStep s (chatAbortPhase s g) := by
  cases hh : alGet s.heap g with
  | none =>
    have he : chatAbortPhase s g = s := by
      simp only [chatAbortPhase, hh]
    rw [he]
    exact goodStep_refl s
  | some sess =>
    by_cases hcond : (sess.status = SessionStatus.running &&
        sess.runner.isSome) = true
    · have he : chatAbortPhase s g = updateHeap (endFold
          (match sess.runner with
            | some p => abortProc s p
            | none => s) sess.sseClients) g
          (fun ss => { ss with sseClients := [] }) := by
        simp only [chatAbortPhase, hh]
        rw [if_pos hcond]
      rw [he]
      have h₁ : GoodStep s (match sess.runner with
          | some p => abortProc s p
          | none => s) := by
        cases sess.runner with
        | none => exact goodStep_refl s
        | some p => exact goodStep_abortProc s p
      refine goodStep_trans ?_
        (goodStep_updateHeap _ _ _ (fun ss => List.prefix_refl _))
      refine goodStep_trans ?_
        (goodStep_eqExceptSinks (eqExceptSinks_endFold _ _))
      exact h₁
    · have he : chatAbortPhase s g = s := by
        simp only [chatAbortPhase, hh]
        rw [if_neg hcond]
      rw [he]
      exact goodStep_refl s

theorem goodStep_chatSeg1 (s : ServerState) (xid : String)
    (csid : Option String) : GoodStep s (chatSeg1 s xid csid).1 :=
  goodStep_trans (goodStep_chatLookup s xid csid) (goodStep_chatAbortPhase _ _)

theorem goodStep_chatSeg2 (s : ServerState) (g : Nat) (xid : String)
    (sink : Nat) : GoodStep s (chatSeg2 s g xid sink) := by
  refine goodStep_trans ?_ (goodStep_addSseClient _ xid sink)
  refine goodStep_trans ?_
    (goodStep_updateHeap _ _ _ (fun sess => List.prefix_refl _))
  exact goodStep_spawnProc s g xid .chatWiring sink

theorem goodStep_procEventStep (s : ServerState) (p : Nat)
    (e : CliStreamEvent) : GoodStep s (procEventStep s p e) := by
  cases hp : alGet s.procs p with
  | none =>
    have he : procEventStep s p e = s := by
      simp only [procEventStep, hp]
    rw [he]
    exact goodStep_refl s
  | some ps =>
    have he : procEventStep s p e = broadcastEvent
        (if (e.type = "init" && e.session_id.isSome) = true then
          updateHeap s ps.owner
            (fun sess => { sess with cliSessionId := e.session_id })
        else s) ps.xid e := by
      simp only [procEventStep, hp]
    rw [he]
    by_cases hc : (e.type = "init" && e.session_id.isSome) = true
    · rw [if_pos hc]
      refine goodStep_trans ?_ (goodStep_broadcast _ _ _)
      exact goodStep_updateHeap _ _ _ (fun sess => List.prefix_refl _)
    · rw [if_neg hc]
      exact goodStep_broadcast _ _ _

theorem goodStep_procLogStep (s : ServerState) (p : Nat) (line : String) :
    GoodStep s (procLogStep s p line) := by
  cases hp : alGet s.procs p with
  | none =>
    have he : procLogStep s p line = s := by
      simp only [procLogStep, hp]
    rw [he]
    exact goodStep_refl s
  | some ps =>
    have he : procLogStep s p line = broadcastEvent s ps.xid (msgEvent line) := by
      simp only [procLogStep, hp]
    rw [he]
    exact goodStep_broadcast _ _ _

theorem goodStep_procCloseCore (s : ServerState) (ps : ProcState) (p : Nat)
    (code : Option Int) : GoodStep s (procCloseCore s ps p code) := by
  refine goodStep_trans ?_ (goodStep_broadcast _ _ _)
  refine goodStep_trans ?_
    (goodStep_updateHeap _ _ _ (fun sess => List.prefix_refl _))
  exact goodStep_of_heap_eq rfl rfl

theorem goodStep_closeChatCleanup (s : ServerState) (g : Nat) :
    GoodStep s (closeChatCleanup s g) := by
  cases hh : alGet s.heap g with
  | none =>
    have he : closeChatCleanup s g = s := by
      simp only [closeChatCleanup, hh]
    rw [he]
    exact goodStep_refl s
  | some sess =>
    have he : closeChatCleanup s g = updateHeap (endFold s sess.sseClients) g
        (fun ss => { ss with sseClients := [] }) := by
      simp only [closeChatCleanup, hh]
    rw [he]
    exact goodStep_trans (goodStep_eqExceptSinks (eqExceptSinks_endFold _ _))
      (goodStep_updateHeap _ g _ (fun ss => List.prefix_refl _))

theorem goodStep_procCloseStep (s : ServerState) (p : Nat)
    (code : Option Int) : GoodStep s (procCloseStep s p code) := by
  cases hp : alGet s.procs p with
  | none =>
    have he : procCloseStep s p code = s := by
      simp only [procCloseStep, hp]
    rw [he]
    exact goodStep_refl s
  | some ps =>
    cases hw : ps.wiring with
    | startWiring =>
      have he : procCloseStep s p code = procCloseCore s ps p code := by
        simp only [procCloseStep, hp, hw]
      rw [he]
      exact goodStep_procCloseCore s ps p code
    | chatWiring =>
      have he : procCloseStep s p code =
          closeChatCleanup (procCloseCore s ps p code) ps.owner := by
        simp only [procCloseStep, hp, hw]
      rw [he]
      exact goodStep_trans (goodStep_procCloseCore s ps p code)
        (goodStep_closeChatCleanup _ ps.owner)

theorem goodStep_procSpawnErrorStep (s : ServerState) (p : Nat)
    (emsg : String) : GoodStep s (procSpawnErrorStep s p emsg) := by
  cases hp : alGet s.procs p with
  | none =>
    have he : procSpawnErrorStep s p emsg = s := by
      simp only [procSpawnErrorStep, hp]
    rw [he]
    exact goodStep_refl s
  | some ps =>
    cases hw : ps.wiring with
    | startWiring =>
      have he : procSpawnErrorStep s p emsg =
          { s with procs := alSet s.procs p { ps with spawnFailed := true } } := by
        simp only [procSpawnErrorStep, hp, hw]
      rw [he]
      exact goodStep_of_heap_eq rfl rfl
    | chatWiring =>
      have he : procSpawnErrorStep s p emsg = endSink (broadcastEvent
          (updateHeap { s with
              procs := alSet s.procs p { ps with spawnFailed := true } }
            ps.owner (fun sess => { sess with status := .failed }))
          ps.xid (errEvent emsg)) ps.resSink := by
        simp only [procSpawnErrorStep, hp, hw]
      rw [he]
      refine goodStep_trans ?_
        (goodStep_eqExceptSinks (eqExceptSinks_endSink _ _))
      refine goodStep_trans ?_ (goodStep_broadcast _ _ _)
      refine goodStep_trans ?_
        (goodStep_updateHeap _ _ _ (fun sess => List.prefix_refl _))
      exact goodStep_of_heap_eq rfl rfl

theorem getSession_inv (s : ServerState) (xid : String)
    (sess : ResearchSession) (h : getSession s xid = some sess) :
    ∃ g, getSessionGen s xid = some g ∧ alGet s.heap g = some sess := by
  unfold getSession at h
  cases hg : getSessionGen s xid with
  | none => rw [hg] at h; cases h
  | some g => rw [hg] at h; exact ⟨g, rfl, h⟩

theorem addSseClient_fields (s : ServerState) (xid : String) (k : Nat) :
    (addSseClient s xid k).sinks = s.sinks ∧
    (addSseClient s xid k).registry = s.registry ∧
    (addSseClient s xid k).nextGen = s.nextGen := by
  unfold addSseClient
  split
  · exact ⟨rfl, rfl, rfl⟩
  · exact ⟨(updateHeap_fields _ _ _).2.1, (updateHeap_fields _ _ _).1,
      (updateHeap_fields _ _ _).2.2.2.1⟩

theorem getSession_of_gen (s : ServerState) (xid : String) (g : Nat)
    (hg : getSessionGen s xid = some g) :
    getSession s xid = alGet s.heap g := by
  unfold getSession
  rw [hg]

theorem eventsHandler_no_session (s : ServerState) (xid : String) (k : Nat)
    (h : getSession s xid = none) : eventsHandler s xid k = (.notFound, s) := by
  simp only [eventsHandler, h]

theorem eventsHandler_running (s : ServerState) (xid : String) (k : Nat)
    (sess : ResearchSession) (h : getSession s xid = some sess)
    (hrun : sess.status = .running) :
    eventsHandler s xid k =
      (.ok, addSseClient (replayFold s k sess.events) xid k) := by
  simp only [eventsHandler, h, hrun, if_pos]

theorem eventsHandler_terminal (s : ServerState) (xid : String) (k : Nat)
    (sess : ResearchSession) (h : getSession s xid = some sess)
    (hns : sess.status ≠ .running) :
    eventsHandler s xid k =
      (.ok, endSink (writeSink (replayFold s k sess.events) k
        (doneNoCode sess.status)) k) := by
  simp only [eventsHandler, h]
  rw [if_neg hns]

theorem goodStep_abortHandler (s : ServerState) (xid : String) :
    GoodStep s (abortHandler s xid).2 := by
  cases hg : getSessionGen s xid with
  | none =>
    have he : abortHandler s xid = (.notFound, s) := by
      simp only [abortHandler, hg]
    rw [he]
    exact goodStep_refl s
  | some g =>
    cases hh : alGet s.heap g with
    | none =>
      have he : abortHandler s xid = (.notFound, s) := by
        simp only [abortHandler, hg, hh]
      rw [he]
      exact goodStep_refl s
    | some sess =>
      by_cases hrun : sess.status = .running
      · rw [abortHandler_running_eq s xid g sess hg hh hrun]
        have h₁ : GoodStep s (match sess.runner with
            | some p => abortProc s p
            | none => s) := by
          cases sess.runner with
          | none => exact goodStep_refl s
          | some p => exact goodStep_abortProc s p
        refine goodStep_trans ?_
          (goodStep_updateHeap _ _ _ (fun ss => List.prefix_refl _))
        refine goodStep_trans ?_
          (goodStep_eqExceptSinks (eqExceptSinks_endFold _ _))
        refine goodStep_trans ?_ (goodStep_broadcast _ xid abortedMsg)
        refine goodStep_trans ?_
          (goodStep_updateHeap _ _ _ (fun ss => List.prefix_refl _))
        exact h₁
      · rw [abortHandler_not_running s xid g sess hg hh hrun]
        exact goodStep_refl s

theorem goodStep_eventsHandler (s : ServerState) (xid : String) (k : Nat) :
    GoodStep s (eventsHandler s xid k).2 := by
  cases h : getSession s xid with
  | none =>
    rw [eventsHandler_no_session s xid k h]
    exact goodStep_refl s
  | some sess =>
    by_cases hrun : sess.status = .running
    · rw [eventsHandler_running s xid k sess h hrun]
      exact goodStep_trans
        (goodStep_eqExceptSinks (eqExceptSinks_replayFold _ _ _))
        (goodStep_addSseClient _ xid k)
    · rw [eventsHandler_terminal s xid k sess h hrun]
      exact goodStep_eqExceptSinks (eqExceptSinks_trans
        (eqExceptSinks_replayFold _ _ _)
        (eqExceptSinks_trans (eqExceptSinks_writeSink _ _ _)
          (eqExceptSinks_endSink _ _)))

/-- Every valid atomic step is a `GoodStep`: it never deletes a session
object, never shrinks a surviving session's event log (it only appends),
and keeps the generation counter monotone. -/
theorem applyOp_goodStep (s : ServerState) (op : Op) (s' : ServerState)
    (h : applyOp s op = some s') : GoodStep s s' := by
  cases op with
  | opStart1 inv req sink =>
    simp only [applyOp] at h
    by_cases hf : freshInv s inv = true
    · rw [if_pos hf] at h
      cases hn : newSink s sink with
      | none => simp only [hn] at h; exact Option.noConfusion h
      | some s₀ =>
        simp only [hn] at h
        have hs₀ : GoodStep s s₀ := by
          unfold newSink at hn
          cases hk : alGet s.sinks sink with
          | some _ => rw [hk] at hn; exact Option.noConfusion hn
          | none =>
            rw [hk] at hn
            injection hn with hn'
            rw [← hn']
            exact goodStep_of_heap_eq rfl rfl
        by_cases hv : startInvalid req = true
        · rw [if_pos hv] at h
          injection h with h'
          rw [← h']
          exact hs₀
        · rw [if_neg hv] at h
          injection h with h'
          rw [← h']
          refine goodStep_trans hs₀ ?_
          refine goodStep_trans
            (goodStep_startCleanup s₀ (req.experimentId.getD "")) ?_
          exact goodStep_of_heap_eq rfl rfl
    · rw [if_neg hf] at h
      exact Option.noConfusion h
  | opStart2 inv =>
    cases hi : alGet s.startInvs inv with
    | none =>
      simp only [applyOp, hi] at h
      exact Option.noConfusion h
    | some si =>
      by_cases hst : si.stage = 1
      · simp only [applyOp, hi] at h
        rw [if_pos hst] at h
        injection h with h'
        rw [← h']
        refine goodStep_trans (goodStep_startSeg2 s si.xid si.sink) ?_
        exact goodStep_of_heap_eq rfl rfl
      · simp only [applyOp, hi] at h
        rw [if_neg hst] at h
        exact Option.noConfusion h
  | opThought inv text =>
    cases hi : alGet s.startInvs inv with
    | none =>
      simp only [applyOp, hi] at h
      exact Option.noConfusion h
    | some si =>
      by_cases hst : si.stage = 2
      · simp only [applyOp, hi] at h
        rw [if_pos hst] at h
        injection h with h'
        rw [← h']
        exact goodStep_broadcast s si.xid _
      · simp only [applyOp, hi] at h
        rw [if_neg hst] at h
        exact Option.noConfusion h
  | opStart3 inv =>
    cases hi : alGet s.startInvs inv with
    | none =>
      simp only [applyOp, hi] at h
      exact Option.noConfusion h
    | some si =>
      by_cases hst : si.stage = 2
      · simp only [applyOp, hi] at h
        rw [if_pos hst] at h
        injection h with h'
        rw [← h']
        refine goodStep_trans (goodStep_startSeg3 s si.gen si.xid si.sink) ?_
        exact goodStep_of_heap_eq rfl rfl
      · simp only [applyOp, hi] at h
        rw [if_neg hst] at h
        exact Option.noConfusion h
  | opStartFail inv emsg =>
    cases hi : alGet s.startInvs inv with
    | none =>
      simp only [applyOp, hi] at h
      exact Option.noConfusion h
    | some si =>
      by_cases hst : si.stage = 2
      · simp only [applyOp, hi] at h
        rw [if_pos hst] at h
        injection h with h'
        rw [← h']
        refine goodStep_trans (goodStep_startSegFail s si.xid emsg) ?_
        exact goodStep_of_heap_eq rfl rfl
      · simp only [applyOp, hi] at h
        rw [if_neg hst] at h
        exact Option.noConfusion h
  | opChat1 inv xid sink csid =>
    simp only [applyOp] at h
    by_cases hf : freshInv s inv = true
    · rw [if_pos hf] at h
      cases hn : newSink s sink with
      | none => simp only [hn] at h; exact Option.noConfusion h
      | some s₀ =>
        simp only [hn] at h
        have hs₀ : GoodStep s s₀ := by
          unfold newSink at hn
          cases hk : alGet s.sinks sink with
          | some _ => rw [hk] at hn; exact Option.noConfusion hn
          | none =>
            rw [hk] at hn
            injection hn with hn'
            rw [← hn']
            exact goodStep_of_heap_eq rfl rfl
        injection h with h'
        rw [← h']
        refine goodStep_trans hs₀ ?_
        refine goodStep_trans (goodStep_chatSeg1 s₀ xid csid) ?_
        exact goodStep_of_heap_eq rfl rfl
    · rw [if_neg hf] at h
      exact Option.noConfusion h
  | opChat2 inv =>
    cases hi : alGet s.chatInvs inv with
    | none =>
      simp only [applyOp, hi] at h
      exact Option.noConfusion h
    | some ci =>
      by_cases hst : ci.stage = 1
      · simp only [applyOp, hi] at h
        rw [if_pos hst] at h
        injection h with h'
        rw [← h']
        refine goodStep_trans (goodStep_chatSeg2 s ci.gen ci.xid ci.sink) ?_
        exact goodStep_of_heap_eq rfl rfl
      · simp only [applyOp, hi] at h
        rw [if_neg hst] at h
        exact Option.noConfusion h
  | opAbort xid =>
    simp only [applyOp] at h
    injection h with h'
    rw [← h']
    exact goodStep_abortHandler s xid
  | opEvents xid sink =>
    cases hn : newSink s sink with
    | none =>
      simp only [applyOp, hn] at h
      exact Option.noConfusion h
    | some s₀ =>
      simp only [applyOp, hn] at h
      have hs₀ : GoodStep s s₀ := by
        unfold newSink at hn
        cases hk : alGet s.sinks sink with
        | some _ => rw [hk] at hn; exact Option.noConfusion hn
        | none =>
          rw [hk] at hn
          injection hn with hn'
          rw [← hn']
          exact goodStep_of_heap_eq rfl rfl
      injection h with h'
      rw [← h']
      exact goodStep_trans hs₀ (goodStep_eventsHandler s₀ xid sink)
  | opStatus xid =>
    simp only [applyOp] at h
    injection h with h'
    rw [← h']
    exact goodStep_refl s
  | opProcEvent p e =>
    cases hp : alGet s.procs p with
    | none =>
      simp only [applyOp, hp] at h
      exact Option.noConfusion h
    | some ps =>
      by_cases hb : (!ps.exited && !ps.spawnFailed) = true
      · simp only [applyOp, hp] at h
        rw [if_pos hb] at h
        injection h with h'
        rw [← h']
        exact goodStep_procEventStep s p e
      · simp only [applyOp, hp] at h
        rw [if_neg hb] at h
        exact Option.noConfusion h
  | opProcLog p line =>
    cases hp : alGet s.procs p with
    | none =>
      simp only [applyOp, hp] at h
      exact Option.noConfusion h
    | some ps =>
      by_cases hb : (!ps.exited && !ps.spawnFailed) = true
      · simp only [applyOp, hp] at h
        rw [if_pos hb] at h
        injection h with h'
        rw [← h']
        exact goodStep_procLogStep s p line
      · simp only [applyOp, hp] at h
        rw [if_neg hb] at h
        exact Option.noConfusion h
  | opProcClose p code =>
    cases hp : alGet s.procs p with
    | none =>
      simp only [applyOp, hp] at h
      exact Option.noConfusion h
    | some ps =>
      by_cases hb : (!ps.exited && !ps.spawnFailed) = true
      · simp only [applyOp, hp] at h
        rw [if_pos hb] at h
        injection h with h'
        rw [← h']
        exact goodStep_procCloseStep s p code
      · simp only [applyOp, hp] at h
        rw [if_neg hb] at h
        exact Option.noConfusion h
  | opProcSpawnError p emsg =>
    cases hp : alGet s.procs p with
    | none =>
      simp only [applyOp, hp] at h
      exact Option.noConfusion h
    | some ps =>
      by_cases hb : (!ps.exited && !ps.spawnFailed) = true
      · simp only [applyOp, hp] at h
        rw [if_pos hb] at h
        injection h with h'
        rw [← h']
        exact goodStep_procSpawnErrorStep s p emsg
      · simp only [applyOp, hp] at h
        rw [if_neg hb] at h
        exact Option.noConfusion h

theorem initial_keysBounded : KeysBounded initialState := by
  intro g h
  simp [initialState, alGet] at h

theorem runFrom_keysBounded (ops : List Op) :
    ∀ s s', KeysBounded s → List.foldlM applyOp s ops = some s' →
      KeysBounded s' := by
  induction ops with
  | nil =>
    intro s s' hk h
    injection h with h'
    rw [← h']
    exact hk
  | cons op ops ih =>
    intro s s' hk h
    have hstep : List.foldlM applyOp s (op :: ops) =
        (applyOp s op).bind (fun s₁ => List.foldlM applyOp s₁ ops) := rfl
    rw [hstep] at h
    cases ha : applyOp s op with
    | none => rw [ha] at h; exact Option.noConfusion h
    | some s₁ =>
      rw [ha] at h
      exact ih s₁ s' ((applyOp_goodStep s op s₁ ha).2.2.2 hk) h

theorem run_keysBounded (ops : List Op) (s : ServerState)
    (h : run ops = some s) : KeysBounded s :=
  runFrom_keysBounded ops initialState s initial_keysBounded h

/-! ## Claims C3, C6 and C7 -/

/-- C3: attaching to an experiment with no session answers not-found.  With
a session that has already logged `events`, the connection's stream is
extended by exactly those events, verbatim and in order (no gaps, no
duplicates).  If the session is still running the connection is then added
to the live sink set (and not ended); if the session is terminal the
connection additionally receives one synthetic `done` event, is ended, and
the session — in particular its sink set — is left untouched, so the
connection is never registered. -/
theorem events_replay_then_subscribe (s : ServerState) (xid : String)
    (k : Nat) :
    (getSession s xid = none → eventsHandler s xid k = (.notFound, s)) ∧
    (∀ sess sk, getSession s xid = some sess → alGet s.sinks k = some sk →
      (eventsHandler s xid k).1 = .ok ∧
      (sess.status = .running →
        alGet (eventsHandler s xid k).2.sinks k =
          some { sk with writes := sk.writes ++ sess.events } ∧
        ∃ sess', getSession (eventsHandler s xid k).2 xid = some sess' ∧
          k ∈ sess'.sseClients ∧ sess'.events = sess.events ∧
          sess'.status = sess.status) ∧
      (sess.status ≠ .running →
        alGet (eventsHandler s xid k).2.sinks k =
          some { writes := (sk.writes ++ sess.events) ++
                   [doneNoCode sess.status],
                 endCount := sk.endCount + 1 } ∧
        getSession (eventsHandler s xid k).2 xid = some sess)) := by
  refine ⟨eventsHandler_no_session s xid k, ?_⟩
  intro sess sk h hsk
  obtain ⟨g, hg, hh⟩ := getSession_inv s xid sess h
  constructor
  · by_cases hrun : sess.status = .running
    · rw [eventsHandler_running s xid k sess h hrun]
    · rw [eventsHandler_terminal s xid k sess h hrun]
  constructor
  · intro hrun
    rw [eventsHandler_running s xid k sess h hrun]
    constructor
    · rw [(addSseClient_fields _ _ _).1, replayFold_sinks_self, hsk]
      rfl
    · have hg₁ : getSessionGen (replayFold s k sess.events) xid = some g := by
        show alGet (replayFold s k sess.events).registry xid = some g
        rw [(eqExceptSinks_replayFold _ _ _).2.1]
        exact hg
      have hh₁ : alGet (replayFold s k sess.events).heap g = some sess := by
        rw [(eqExceptSinks_replayFold _ _ _).1]
        exact hh
      refine ⟨{ sess with sseClients :=
          if k ∈ sess.sseClients then sess.sseClients
          else sess.sseClients ++ [k] }, ?_, ?_, rfl, rfl⟩
      · have hadd : addSseClient (replayFold s k sess.events) xid k =
            updateHeap (replayFold s k sess.events) g
              (fun sess => { sess with sseClients :=
                if k ∈ sess.sseClients then sess.sseClients
                else sess.sseClients ++ [k] }) := by
          simp only [addSseClient, hg₁]
        rw [hadd]
        have hg₂ : getSessionGen (updateHeap (replayFold s k sess.events) g
            (fun sess => { sess with sseClients :=
              if k ∈ sess.sseClients then sess.sseClients
              else sess.sseClients ++ [k] })) xid = some g := by
          show alGet (updateHeap _ _ _).registry xid = some g
          rw [(updateHeap_fields _ _ _).1]
          exact hg₁
        rw [getSession_of_gen _ xid g hg₂, alGet_updateHeap_self, hh₁]
        rfl
      · by_cases hmem : k ∈ sess.sseClients
        · simp [hmem]
        · simp [hmem]
  · intro hns
    rw [eventsHandler_terminal s xid k sess h hns]
    constructor
    · show alGet (alEnd (writeSink (replayFold s k sess.events) k
        (doneNoCode sess.status)).sinks k) k = _
      rw [alGet_alEnd, if_pos rfl]
      show ((alGet (alWrite (replayFold s k sess.events).sinks k
        (doneNoCode sess.status)) k).map _) = _
      rw [alGet_alWrite, if_pos rfl, replayFold_sinks_self, hsk]
      rfl
    · unfold getSession
      have hg₁ : getSessionGen (endSink (writeSink
          (replayFold s k sess.events) k (doneNoCode sess.status)) k) xid =
          some g := by
        show alGet _ xid = some g
        rw [(eqExceptSinks_endSink _ _).2.1, (eqExceptSinks_writeSink _ _ _).2.1,
          (eqExceptSinks_replayFold _ _ _).2.1]
        exact hg
      rw [hg₁, (eqExceptSinks_endSink _ _).1, (eqExceptSinks_writeSink _ _ _).1,
        (eqExceptSinks_replayFold _ _ _).1]
      exact hh

/-! ## Claims C6 and C7 -/

/-- C6: a Start request with a missing (or empty, which JS treats the same)
`experimentId` or `hypothesis` is rejected with HTTP 400 synchronously, with
the state returned untouched — so no session is created or modified and no
subprocess is spawned — and a Status query for an id with no session
reports `idle` with zero event count. -/
theorem start_validation_rejects (s : ServerState) (r : StartRequest)
    (xid : String) :
    ((falsy r.experimentId || falsy r.hypothesis) = true →
      start1 s r = (.badRequest, s)) ∧
    (getSession s xid = none →
      statusHandler s xid =
        { status := "idle", cliSessionId := none, startedAt := none,
          eventCount := 0 }) := by
  constructor
  · intro h
    simp [start1, startInvalid, h]
  · intro hs
    simp [statusHandler, hs]

/-- C7: Abort with no session, or with a session that is not running,
reports not-found and changes nothing.  Abort on a running session answers
ok and: keeps the registry entry, sets status `aborted`, clears the runner
reference, appends exactly one explanatory error event to the log, writes
that event to every attached sink and ends each exactly once, and empties
the sink set.  A second abort immediately after returns not-found with no
further state change — so two aborts in succession produce exactly one
`aborted` transition and exactly one broadcast error event. -/
theorem abort_is_idempotent (s : ServerState) (xid : String) :
    (getSession s xid = none → abortHandler s xid = (.notFound, s)) ∧
    (∀ g sess, getSessionGen s xid = some g → alGet s.heap g = some sess →
      sess.status ≠ .running → abortHandler s xid = (.notFound, s)) ∧
    (∀ g sess, getSessionGen s xid = some g → alGet s.heap g = some sess →
      sess.status = .running →
      (abortHandler s xid).1 = .ok ∧
      getSessionGen (abortHandler s xid).2 xid = some g ∧
      alGet (abortHandler s xid).2.heap g =
        some { sess with
          status := .aborted
          runner := none
          events := sess.events ++ [abortedMsg]
          sseClients := [] } ∧
      (sess.sseClients.Nodup → ∀ k ∈ sess.sseClients, ∀ sk,
        alGet s.sinks k = some sk →
        alGet (abortHandler s xid).2.sinks k =
          some { writes := sk.writes ++ [abortedMsg],
                 endCount := sk.endCount + 1 }) ∧
      abortHandler (abortHandler s xid).2 xid =
        (.notFound, (abortHandler s xid).2)) := by
  refine ⟨abortHandler_no_session s xid,
    fun g sess hg hh hns => abortHandler_not_running s xid g sess hg hh hns,
    ?_⟩
  intro g sess hg hh hrun
  have heq := abortHandler_running_eq s xid g sess hg hh hrun
  have hf : (match sess.runner with
        | some p => abortProc s p
        | none => s).heap = s.heap ∧
      (match sess.runner with
        | some p => abortProc s p
        | none => s).registry = s.registry ∧
      (match sess.runner with
        | some p => abortProc s p
        | none => s).sinks = s.sinks := by
    cases sess.runner with
    | none => exact ⟨rfl, rfl, rfl⟩
    | some p =>
      exact ⟨(abortProc_fields s p).1, (abortProc_fields s p).2.1,
        (abortProc_fields s p).2.2.1⟩
  have hchain := abort_running_chain s _ xid g sess hg hh hf.1 hf.2.1 hf.2.2
  refine ⟨?_, ?_, ?_, ?_, ?_⟩
  · rw [heq]
  · rw [heq]; exact hchain.1
  · rw [heq]; exact hchain.2.1
  · intro hnd k hk sk hsk
    rw [heq]
    exact hchain.2.2 hnd k hk sk hsk
  · rw [heq]
    exact abortHandler_not_running _ xid g _ hchain.1 hchain.2.1
      (fun hcon => nomatch hcon)

/-- C7 (witness): on a concrete one-session state — running, one sink,
runner 7 — abort answers ok, aborts the session, appends the error event,
ends the sink once, and a second abort answers not-found. -/
theorem abort_is_idempotent_witness :
    (abortHandler demoAbortState ("e1")).1 = .ok ∧
    alGet (abortHandler demoAbortState ("e1")).2.heap 0 =
      some { experimentId := "e1", cliSessionId := none, status := .aborted,
             startedAt := 0, runner := none, events := [abortedMsg],
             sseClients := [] } ∧
    alGet (abortHandler demoAbortState ("e1")).2.sinks 5 =
      some { writes := [abortedMsg], endCount := 1 } ∧
    abortHandler (abortHandler demoAbortState ("e1")).2 ("e1") =
      (.notFound, (abortHandler demoAbortState ("e1")).2) := by
  have h := (abort_is_idempotent demoAbortState ("e1")).2.2 0
    { experimentId := "e1", cliSessionId := none, status := .running,
      startedAt := 0, runner := some 7, events := [], sseClients := [5] }
    (by decide) (by decide) (by decide)
  refine ⟨h.1, ?_, ?_, h.2.2.2.2⟩
  · rw [h.2.2.1]
    rfl
  · have hs := h.2.2.2.1 (by decide) 5 (by decide) { writes := [], endCount := 0 }
      (by decide)
    rw [hs]
    rfl

/-- C6 (witness): a Start with a hypothesis but no experiment id is
rejected on the fresh server, and Status for that id reports idle with
zero events. -/
theorem start_validation_rejects_witness :
    start1 initialState { experimentId := none, hypothesis := some ("H") } =
      (.badRequest, initialState) ∧
    statusHandler initialState ("e9") =
      { status := "idle", cliSessionId := none, startedAt := none,
        eventCount := 0 } := by
  refine ⟨(start_validation_rejects initialState
      { experimentId := none, hypothesis := some ("H") } ("e9")).1 (by decide),
    (start_validation_rejects initialState
      { experimentId := none, hypothesis := some ("H") } ("e9")).2 (by decide)⟩

/-! ## Claim C10 -/

/-- C10: the broadcaster is append-only.  A broadcast for an id with no
session is a silent no-op on the whole state (never a throw: `broadcastEvent`
is total).  A broadcast for an existing session appends exactly one event to
that session's log and keeps its registry entry.  Along any valid trace,
every step that preserves a session's registry generation only extends that
session's event log (old log is a prefix of the new one), so the event
count reported by Status — which equals the log length, and 0 for an absent
session — is non-decreasing over the session's lifetime. -/
theorem broadcaster_append_only :
    (∀ s xid e, getSession s xid = none → broadcastEvent s xid e = s) ∧
    (∀ s xid e g sess, getSessionGen s xid = some g →
      alGet s.heap g = some sess →
      alGet (broadcastEvent s xid e).heap g =
        some { sess with events := sess.events ++ [e] } ∧
      getSessionGen (broadcastEvent s xid e) xid = some g) ∧
    (∀ ops op s s', run ops = some s → applyOp s op = some s' →
      ∀ xid g sess sess', getSessionGen s xid = some g →
        getSessionGen s' xid = some g →
        alGet s.heap g = some sess → alGet s'.heap g = some sess' →
        sess.events <+: sess'.events) ∧
    (∀ s xid sess, getSession s xid = some sess →
      (statusHandler s xid).eventCount = sess.events.length) ∧
    (∀ s xid, getSession s xid = none →
      (statusHandler s xid).eventCount = 0) := by
  refine ⟨broadcastEvent_absent, ?_, ?_, ?_, ?_⟩
  · intro s xid e g sess hg hh
    refine ⟨broadcastEvent_heap_self s xid e g sess hg hh, ?_⟩
    show alGet (broadcastEvent s xid e).registry xid = some g
    rw [broadcastEvent_registry]
    exact hg
  · intro ops op s s' hrun hop xid g sess sess' hg hg' hh hh'
    have hgs := applyOp_goodStep s op s' hop
    have hkb : KeysBounded s := run_keysBounded ops s hrun
    exact hgs.2.2.1 g sess sess' (hkb g (by rw [hh]; rfl)) hh hh'
  · intro s xid sess h
    simp only [statusHandler, h]
  · intro s xid h
    simp only [statusHandler, h]

/-- C10 (witness): a broadcast on the concrete one-session state appends
exactly the broadcast event; an absent id reports zero events. -/
theorem broadcaster_append_only_witness :
    alGet (broadcastEvent demoAbortState ("e1") (msgEvent ("x"))).heap 0 =
      some { experimentId := "e1", cliSessionId := none, status := .running,
             startedAt := 0, runner := some 7, events := [msgEvent ("x")],
             sseClients := [5] } ∧
    (statusHandler initialState ("zz")).eventCount = 0 := by
  refine ⟨?_, broadcaster_append_only.2.2.2.2 initialState ("zz") (by decide)⟩
  have h := (broadcaster_append_only.2.1 demoAbortState ("e1")
    (msgEvent ("x")) 0
    { experimentId := "e1", cliSessionId := none, status := .running,
      startedAt := 0, runner := some 7, events := [], sseClients := [5] }
    (by decide) (by decide)).1
  rw [h]
  rfl

/-- C3 (witness): attaching to the finished demo session replays its two
logged events to the new connection, appends the synthetic `done`, ends the
connection once, and leaves the session (and its empty sink set)
untouched. -/
theorem events_replay_then_subscribe_witness :
    (eventsHandler demoEventsState ("e2") 9).1 = .ok ∧
    alGet (eventsHandler demoEventsState ("e2") 9).2.sinks 9 =
      some { writes := [msgEvent ("a"), errEvent ("b"),
               doneNoCode .completed], endCount := 1 } ∧
    getSession (eventsHandler demoEventsState ("e2") 9).2 ("e2") =
      some { experimentId := "e2", cliSessionId := some ("tok"),
             status := .completed, startedAt := 0, runner := none,
             events := [msgEvent ("a"), errEvent ("b")], sseClients := [] } := by
  have h := (events_replay_then_subscribe demoEventsState ("e2") 9).2
    { experimentId := "e2", cliSessionId := some ("tok"),
      status := .completed, startedAt := 0, runner := none,
      events := [msgEvent ("a"), errEvent ("b")], sseClients := [] }
    { writes := [], endCount := 0 } (by decide) (by decide)
  have ht := h.2.2 (by decide)
  refine ⟨h.1, ?_, ht.2⟩
  rw [ht.1]
  rfl

end AIResearcher
